import Mathlib

/-!
Verification of the KSW (Kartesian SignWriting) core of the `swip`
repository: the notation grammar (src/swip/parser.py), the symbol
model and layout parser (same file), the glyph addressing scheme
(src/swip/iswa_font.py) and the composition engine
(src/swip/compose.py).

Python regular expressions are embedded as an explicit regex datatype
with an inductive matching semantics and a Brzozowski-derivative
matcher; Python functions are translated to executable Lean functions
over `List Char` / `String`.
-/

namespace Swip

/-- Regular expressions over characters, with character classes given
by a boolean predicate.  `emp` matches nothing, `eps` the empty
string. -/
inductive Regex where
  | emp : Regex
  | eps : Regex
  | cls : (Char → Bool) → Regex
  | cat : Regex → Regex → Regex
  | alt : Regex → Regex → Regex
  | star : Regex → Regex

/-- Matching semantics of a regex against a character list. -/
inductive RMatch : Regex → List Char → Prop where
  | eps : RMatch .eps []
  | cls {p : Char → Bool} {c : Char} : p c = true → RMatch (.cls p) [c]
  | cat {r₁ r₂ : Regex} {s₁ s₂ s : List Char} :
      RMatch r₁ s₁ → RMatch r₂ s₂ → s = s₁ ++ s₂ → RMatch (.cat r₁ r₂) s
  | altL {r₁ r₂ : Regex} {s : List Char} : RMatch r₁ s → RMatch (.alt r₁ r₂) s
  | altR {r₁ r₂ : Regex} {s : List Char} : RMatch r₂ s → RMatch (.alt r₁ r₂) s
  | starNil {r : Regex} : RMatch (.star r) []
  | starCons {r : Regex} {s₁ s₂ s : List Char} :
      RMatch r s₁ → RMatch (.star r) s₂ → s = s₁ ++ s₂ → RMatch (.star r) s

/-- Does the regex accept the empty string? -/
def Regex.nullable : Regex → Bool
  | .emp => false
  | .eps => true
  | .cls _ => false
  | .cat a b => a.nullable && b.nullable
  | .alt a b => a.nullable || b.nullable
  | .star _ => true

/-- Brzozowski derivative of a regex by one character. -/
def Regex.deriv : Regex → Char → Regex
  | .emp, _ => .emp
  | .eps, _ => .emp
  | .cls p, c => if p c then .eps else .emp
  | .cat a b, c =>
      if a.nullable then .alt (.cat (a.deriv c) b) (b.deriv c)
      else .cat (a.deriv c) b
  | .alt a b, c => .alt (a.deriv c) (b.deriv c)
  | .star a, c => .cat (a.deriv c) (.star a)

/-- Executable full match by repeated derivatives. -/
def Regex.rmatch : Regex → List Char → Bool
  | r, [] => r.nullable
  | r, c :: s => (r.deriv c).rmatch s

/-- Concatenation of a list of regexes. -/
def rcat (l : List Regex) : Regex := l.foldr .cat .eps

/-- The `?` quantifier. -/
def ropt (r : Regex) : Regex := .alt r .eps

/-- The `+` quantifier, as `r` followed by `r*`. -/
def rplus (r : Regex) : Regex := .cat r (.star r)

/-- A literal character under `re.IGNORECASE` (the literal is given in
lower case). -/
def ichr (a : Char) : Regex := .cls (fun c => c.toLower == a)

/-- The class `[0-9]`, as the explicit set of its ten characters. -/
def isDig (c : Char) : Bool := "0123456789".toList.contains c

/-- The class `[0-9a-f]` under `re.IGNORECASE`: the sixteen lower-case
hex digits, up to case. -/
def isHexCI (c : Char) : Bool := "0123456789abcdef".toList.contains c.toLower

/-- The class `[123]`. -/
def isD123 (c : Char) : Bool := "123".toList.contains c

/-- The class `[0-5]`. -/
def isD05 (c : Char) : Bool := "012345".toList.contains c

/-- The class `[7-9ab]` under `re.IGNORECASE`. -/
def isPuncDigCI (c : Char) : Bool := "789ab".toList.contains c.toLower

/-- The class `[BLMR]` under `re.IGNORECASE`. -/
def isMarkerCI (c : Char) : Bool := "blmr".toList.contains c.toLower

/-- `SYMBOL_BLOCK = 'S[123][0-9a-f]{2}[0-5][0-9a-f]'` (parser.py line 12),
compiled with `re.IGNORECASE` as in all token regexes. -/
def SYMBOL_BLOCK : Regex :=
  rcat [ichr 's', .cls isD123, .cls isHexCI, .cls isHexCI, .cls isD05, .cls isHexCI]

/-- `COORD_BLOCK = 'n?[0-9]+xn?[0-9]+'` (parser.py line 13). -/
def COORD_BLOCK : Regex :=
  rcat [ropt (ichr 'n'), rplus (.cls isDig), ichr 'x',
        ropt (ichr 'n'), rplus (.cls isDig)]

/-- `POS_COORD_BLOCK = '[0-9]+x[0-9]+'` (parser.py line 14). -/
def POS_COORD_BLOCK : Regex :=
  rcat [rplus (.cls isDig), ichr 'x', rplus (.cls isDig)]

/-- The optional group leading `re_word`: `'(A(' + SYMBOL_BLOCK + ')+)?'`. -/
def pre_word : Regex := ropt (.cat (ichr 'a') (rplus SYMBOL_BLOCK))

/-- The marker alternative `[BLMR]`. -/
def markerRe : Regex := .cls isMarkerCI

/-- `re_word` (parser.py lines 15-17). -/
def re_word : Regex :=
  .cat pre_word (.cat markerRe (.star (.cat SYMBOL_BLOCK COORD_BLOCK)))

/-- `re_pword` (parser.py lines 18-21). -/
def re_pword : Regex :=
  .cat pre_word (.cat markerRe
    (.star (rcat [SYMBOL_BLOCK, POS_COORD_BLOCK, ichr 'x', COORD_BLOCK])))

/-- `re_panelword` (parser.py lines 22-24). -/
def re_panelword : Regex :=
  .cat markerRe (.cat POS_COORD_BLOCK (.star (.cat SYMBOL_BLOCK COORD_BLOCK)))

/-- `re_lword` (parser.py lines 25-26). -/
def re_lword : Regex := .cat pre_word re_panelword

/-- `re_punc = 'S38[7-9ab][0-5][0-9a-f]'` (parser.py line 27). -/
def re_punc : Regex :=
  rcat [ichr 's', ichr '3', ichr '8', .cls isPuncDigCI, .cls isD05, .cls isHexCI]

/-- `re_ppunc` (parser.py line 28). -/
def re_ppunc : Regex := .cat re_punc POS_COORD_BLOCK

/-- `re_lpunc` (parser.py line 29). -/
def re_lpunc : Regex := .cat re_punc COORD_BLOCK

/-- `RAW_TOKEN` (parser.py lines 37-38). -/
def RAW_TOKEN : Regex := .alt re_word re_punc

/-- `EXPANDED_TOKEN` (parser.py lines 39-40). -/
def EXPANDED_TOKEN : Regex := .alt re_pword re_ppunc

/-- `LAYOUT_TOKEN` (parser.py lines 41-42). -/
def LAYOUT_TOKEN : Regex := .alt re_lword re_lpunc

/-- `PANEL_TOKEN` (parser.py lines 43-45). -/
def PANEL_TOKEN : Regex :=
  rcat [ichr 'd', POS_COORD_BLOCK, .star (.cat (.cls (fun c => c == '_')) re_panelword)]

/-- Python `str.split()` whitespace characters (ASCII). -/
def isPySpace (c : Char) : Bool :=
  c == ' ' || c == '\t' || c == '\n' || c == '\r' || c == '\x0b' || c == '\x0c'

/-- Helper for `pySplit`, accumulating the current word reversed. -/
def splitAux : List Char → List Char → List (List Char)
  | [], acc => if acc.isEmpty then [] else [acc.reverse]
  | c :: s, acc =>
      if isPySpace c then
        (if acc.isEmpty then splitAux s [] else acc.reverse :: splitAux s [])
      else splitAux s (c :: acc)

/-- Python `str.split()` with no argument: split on whitespace runs,
discarding empty fields. -/
def pySplit (s : List Char) : List (List Char) := splitAux s []

/-- `is_raw` (parser.py lines 50-96): every whitespace-delimited token
fully matches `RAW_TOKEN`. -/
def is_raw (text : String) : Bool :=
  (pySplit text.toList).all fun t => RAW_TOKEN.rmatch t

/-- `is_expanded` (parser.py lines 99-142). -/
def is_expanded (text : String) : Bool :=
  (pySplit text.toList).all fun t => EXPANDED_TOKEN.rmatch t

/-- `is_layouted` (parser.py lines 145-171). -/
def is_layouted (text : String) : Bool :=
  (pySplit text.toList).all fun t => LAYOUT_TOKEN.rmatch t

/-- `is_panel` (parser.py lines 174-185). -/
def is_panel (text : String) : Bool :=
  (pySplit text.toList).all fun t => PANEL_TOKEN.rmatch t

/-- A literal character without `re.IGNORECASE` (as in the uncompiled
pattern strings used by `parse`, parser.py lines 401-405). -/
def chr1 (a : Char) : Regex := .cls (fun c => c == a)

/-- The class `[0-9a-f]` without `re.IGNORECASE`. -/
def isHexCS (c : Char) : Bool := "0123456789abcdef".toList.contains c

/-- The class `[7-9ab]` without `re.IGNORECASE`. -/
def isPuncDigCS (c : Char) : Bool := "789ab".toList.contains c

/-- `SYMBOL_BLOCK` as used case-sensitively inside `parse`'s
`re.fullmatch` and `re.findall` (parser.py lines 401-405, 424-426). -/
def SYMBOL_BLOCK_CS : Regex :=
  rcat [chr1 'S', .cls isD123, .cls isHexCS, .cls isHexCS, .cls isD05, .cls isHexCS]

/-- `COORD_BLOCK` as used case-sensitively inside `parse`. -/
def COORD_BLOCK_CS : Regex :=
  rcat [ropt (chr1 'n'), rplus (.cls isDig), chr1 'x',
        ropt (chr1 'n'), rplus (.cls isDig)]

/-- `re_punc` as used case-sensitively inside `parse`. -/
def PUNC_CS : Regex :=
  rcat [chr1 'S', chr1 '3', chr1 '8', .cls isPuncDigCS, .cls isD05, .cls isHexCS]

/-- The pattern `'n?[0-9]+'` of `swnumber` (parser.py line 346),
case-sensitive. -/
def NUM_CS : Regex := .cat (ropt (chr1 'n')) (rplus (.cls isDig))

/-- Decimal value of a digit string, as Python `int`. -/
def digitsVal (l : List Char) : Int :=
  l.foldl (fun a c => a * 10 + ((c.toNat : Int) - ('0'.toNat : Int))) 0

/-- `swnumber` (parser.py lines 328-352): validate `n?[0-9]+`, then an
`n` marker means a negative number. -/
def swnumber (s : List Char) : Except String Int :=
  if NUM_CS.rmatch s then
    if s.head? = some 'n' then .ok (-(digitsVal s.tail))
    else .ok (digitsVal s)
  else .error "Not a valid KSW number string"

/-- Python `str.split(sep)` for a one-character separator, keeping
empty fields. -/
def splitOnChar (sep : Char) : List Char → List (List Char)
  | [] => [[]]
  | c :: rest =>
      if c == sep then [] :: splitOnChar sep rest
      else
        match splitOnChar sep rest with
        | [] => [[c]]
        | f :: fs => (c :: f) :: fs

/-- `coordinates` (parser.py lines 355-377): validate against the
`COORDINATES` regex (compiled from `COORD_BLOCK` with
`re.IGNORECASE`), split on `'x'` into exactly two fields, and convert
both with `swnumber`. -/
def coordinates (sw_substring : List Char) : Except String (Int × Int) :=
  if COORD_BLOCK.rmatch sw_substring then
    match splitOnChar 'x' sw_substring with
    | [a1, a2] => do
        let x ← swnumber a1
        let y ← swnumber a2
        .ok (x, y)
    | _ => .error "unpacking error"
  else .error "Not a valid KSW coordinates string"

/-- `symbol_ranges` (parser.py lines 246-256), in source (insertion)
order. -/
def symbol_ranges : List (String × Int × Int) :=
  [("iswa", 0x100, 0x38b),
   ("writing", 0x100, 0x37e),
   ("hand", 0x100, 0x204),
   ("movement", 0x205, 0x2f6),
   ("dynamics", 0x2f7, 0x2fe),
   ("head", 0x2ff, 0x36c),
   ("trunk", 0x36d, 0x375),
   ("limb", 0x376, 0x37e),
   ("location", 0x37f, 0x386),
   ("punctuation", 0x387, 0x38b)]

/-- Value of one hexadecimal digit, as accepted by Python
`int(_, 16)` (both cases; the code ranges are 48-57 for `0`-`9`,
97-102 for `a`-`f`, 65-70 for `A`-`F`). -/
def hexDigitVal (c : Char) : Option Int :=
  if 48 ≤ c.toNat ∧ c.toNat ≤ 57 then some ((c.toNat : Int) - 48)
  else if 97 ≤ c.toNat ∧ c.toNat ≤ 102 then some ((c.toNat : Int) - 97 + 10)
  else if 65 ≤ c.toNat ∧ c.toNat ≤ 70 then some ((c.toNat : Int) - 65 + 10)
  else none

/-- Python `int(s, 16)` on a string of bare hex digits; `none` models
the `ValueError` on an empty or non-hex string. -/
def intHex (l : List Char) : Option Int :=
  if l.isEmpty then none
  else l.foldl (fun acc c => do
    let a ← acc
    let d ← hexDigitVal c
    pure (a * 16 + d)) (some 0)

/-- `symbol_id` (parser.py lines 259-275): after an optional `S`, the
first three characters as a hexadecimal number. -/
def symbol_id (symbol : List Char) : Option Int :=
  if symbol.head? = some 'S' then intHex (symbol.tail.take 3)
  else intHex (symbol.take 3)

/-- `symbol_type` on an integer id (parser.py lines 303-325): scan
`symbol_ranges` in order, skipping `iswa` and `writing`; `none` models
the `ValueError` when no range contains the id. -/
def symbol_type (z : Int) : Option String :=
  ((symbol_ranges.filter fun r => ¬ (r.1 = "iswa" ∨ r.1 = "writing")).find?
    fun r => decide (r.2.1 ≤ z ∧ z ≤ r.2.2)).map (·.1)

/-- `symbol_type` applied to a symbol key string: the string is first
converted with `symbol_id` (parser.py lines 315-318). -/
def symbol_type_str (symbol : List Char) : Option String :=
  (symbol_id symbol).bind symbol_type

/-- `ISWAFont.code` (iswa_font.py lines 29-50): strip a leading `S`,
then `1 + (int(key[0:3], 16) - 256) * 96 + int(key[3:5], 16)`. -/
def code (symbol_key : List Char) : Option Int :=
  let k := if symbol_key.head? = some 'S' then symbol_key.tail else symbol_key
  match intHex (k.take 3), intHex ((k.drop 3).take 2) with
  | some a, some b => some (1 + (a - 256) * 96 + b)
  | _, _ => none

/-- Integers extended with the two floating-point infinities used as
fold seeds by `parse` (`float('-inf')`, parser.py line 423) and
`min_coordinates` (`float('inf')`, parser.py lines 439-440). -/
inductive XInt where
  | negInf : XInt
  | int : Int → XInt
  | posInf : XInt
deriving DecidableEq

/-- Python `<` on the mixed int/float values of `XInt`. -/
def XInt.blt : XInt → XInt → Bool
  | .negInf, .negInf => false
  | .negInf, _ => true
  | .int _, .negInf => false
  | .int a, .int b => decide (a < b)
  | .int _, .posInf => true
  | .posInf, _ => false

/-- Python `max(a, b)`: returns `a` on ties. -/
def XInt.pymax (a b : XInt) : XInt := if XInt.blt a b then b else a

/-- Python `min(a, b)`: returns `a` on ties. -/
def XInt.pymin (a b : XInt) : XInt := if XInt.blt b a then b else a

/-- Python unary minus. -/
def XInt.neg : XInt → XInt
  | .negInf => .posInf
  | .int z => .int (-z)
  | .posInf => .negInf

/-- Python `+` with an integer (an infinity absorbs). -/
def XInt.addInt : XInt → Int → XInt
  | .negInf, _ => .negInf
  | .posInf, _ => .posInf
  | .int a, p => .int (a + p)

/-- Python `-` on the values reachable in `glyphogram` (an infinite
minuend absorbs; `int - posInf` is `-inf`, `int - negInf` is `+inf`;
the same-sign infinite difference, `nan` in Python, is unreachable
there and mapped arbitrarily). -/
def XInt.sub : XInt → XInt → XInt
  | .int a, .int b => .int (a - b)
  | .int _, .posInf => .negInf
  | .int _, .negInf => .posInf
  | .negInf, _ => .negInf
  | .posInf, _ => .posInf

/-- Greedily take leading 6-character chunks matching `SYMBOL_BLOCK`
(case-insensitively), as `re.match` of `'A((SYM)+)'` and the
subsequent aligned `re.findall` do inside `prefix_symbols`. -/
def takeSymsCI : List Char → List (List Char) × List Char
  | c1 :: c2 :: c3 :: c4 :: c5 :: c6 :: rest =>
      if SYMBOL_BLOCK.rmatch [c1, c2, c3, c4, c5, c6] then
        let p := takeSymsCI rest
        ([c1, c2, c3, c4, c5, c6] :: p.1, p.2)
      else ([], c1 :: c2 :: c3 :: c4 :: c5 :: c6 :: rest)
  | s => ([], s)

/-- `prefix_symbols` (parser.py lines 227-241): match `PREFIX`
(`'A((SYM)+)'`, `re.IGNORECASE`) at the start and list the symbol
chunks of the matched group. -/
def prefix_symbols (sw_string : List Char) : List (List Char) :=
  match sw_string with
  | c :: rest => if c.toLower == 'a' then (takeSymsCI rest).1 else []
  | [] => []

/-- Helper for `pyReplace`, structurally recursive on a fuel argument
that starts at the length of the string (each step consumes at least
one character, so the fuel never runs out). -/
def pyReplaceF : Nat → List Char → List Char → List Char
  | _, [], _ => []
  | 0, s, _ => s
  | fuel + 1, c :: r, pat =>
      if !pat.isEmpty && pat.isPrefixOf (c :: r) then
        pyReplaceF fuel (r.drop (pat.length - 1)) pat
      else c :: pyReplaceF fuel r pat

/-- Python `str.replace(pat, '')`: remove all non-overlapping
occurrences, left to right. -/
def pyReplace (s pat : List Char) : List Char := pyReplaceF s.length s pat

/-- The optional `(POS_COORD_BLOCK)?` group after the orientation
marker in `parse`'s structural regex (parser.py line 403): if the next
character is a digit the group must match, and its matched text is
returned for `coordinates`. -/
def takeExtent (s : List Char) : Except String (Option (List Char) × List Char) :=
  match s with
  | c :: _ =>
      if isDig c then
        let d1 := s.takeWhile isDig
        match s.dropWhile isDig with
        | 'x' :: r2 =>
            let d2 := r2.takeWhile isDig
            if d2.isEmpty then .error "String contained unrecognized elements"
            else .ok (some (d1 ++ 'x' :: d2), r2.dropWhile isDig)
        | _ => .error "String contained unrecognized elements"
      else .ok (none, s)
  | [] => .ok (none, s)

/-- The `(SYMBOL_BLOCK + COORD_BLOCK)*` body of `parse`'s structural
regex together with the aligned `re.findall` extraction (parser.py
lines 404, 424-426): split into (symbol, coordinate string) pairs.  A
coordinate string extends to the next `'S'` because the
(case-sensitive) coordinate alphabet does not contain `'S'` and every
symbol chunk starts with it. -/
def parseBodyF : Nat → List Char → Except String (List (List Char × List Char))
  | _, [] => .ok []
  | 0, _ => .error "String contained unrecognized elements"
  | fuel + 1, c1 :: c2 :: c3 :: c4 :: c5 :: c6 :: rest =>
      if SYMBOL_BLOCK_CS.rmatch [c1, c2, c3, c4, c5, c6] then
        let cstr := rest.takeWhile (fun c => c ≠ 'S')
        if COORD_BLOCK_CS.rmatch cstr then do
          let tl ← parseBodyF fuel (rest.dropWhile (fun c => c ≠ 'S'))
          .ok (([c1, c2, c3, c4, c5, c6], cstr) :: tl)
        else .error "String contained unrecognized elements"
      else .error "String contained unrecognized elements"
  | _ + 1, _ => .error "String contained unrecognized elements"

/-- Entry point of the body split, with enough fuel (each step consumes
at least six characters). -/
def parseBody (s : List Char) : Except String (List (List Char × List Char)) :=
  parseBodyF s.length s

/-- The `[BLMR](POS)?((SYM COORD)*)` alternative of `parse`
(parser.py lines 403-404 and 419-435): orientation marker, optional
extent, body pairs; the anchor coordinate is the explicit extent if
present, else the running maxima over body coordinates seeded with
`float('-inf')`. -/
def wordShape (sw : List Char) : Except String (List (List Char × XInt × XInt)) :=
  match sw with
  | m :: rest =>
      if m == 'B' || m == 'L' || m == 'M' || m == 'R' then do
        let er ← takeExtent rest
        let pairs ← parseBody er.2
        let body ← pairs.mapM (fun p => do
          let co ← coordinates p.2
          Except.ok (p.1, co))
        let maxx := body.foldl (fun a p => XInt.pymax a (.int p.2.1)) .negInf
        let maxy := body.foldl (fun a p => XInt.pymax a (.int p.2.2)) .negInf
        let anchor ← match er.1 with
          | some g5 => do
              let co ← coordinates g5
              Except.ok (XInt.int co.1, XInt.int co.2)
          | none => Except.ok (maxx, maxy)
        .ok ((([m] : List Char), anchor) ::
          body.map (fun p => (p.1, XInt.int p.2.1, XInt.int p.2.2)))
      else .error "String contained unrecognized elements"
  | [] => .error "String contained unrecognized elements"

/-- `parse` (parser.py lines 380-435), on the character list of the
layout string. -/
def parseL (ls : List Char) : Except String (List (List Char × XInt × XInt)) :=
  if ls.isEmpty then .ok [(['M'], .int 0, .int 0)]
  else
    let seq := 'A' :: (prefix_symbols ls).flatten
    let sw := pyReplace ls seq
    match sw with
    | c1 :: c2 :: c3 :: c4 :: c5 :: c6 :: rest =>
        if PUNC_CS.rmatch [c1, c2, c3, c4, c5, c6] && COORD_BLOCK_CS.rmatch rest then do
          let co ← coordinates rest
          .ok [(['B'], .int (-co.1), .int (-co.2)),
               ([c1, c2, c3, c4, c5, c6], .int co.1, .int co.2)]
        else wordShape sw
    | _ => wordShape sw

/-- `parse` (parser.py lines 380-435). -/
def parse (layout_string : String) : Except String (List (List Char × XInt × XInt)) :=
  parseL layout_string.toList

/-- `min_coordinates` (parser.py lines 438-446): fold `min` over the
body coordinates (the anchor at index 0 is skipped), seeded with `0`
or `float('inf')`. -/
def min_coordinates (cluster : List (List Char × XInt × XInt))
    (min_is_zero : Bool) : XInt × XInt :=
  let seed : XInt := if min_is_zero then .int 0 else .posInf
  match cluster with
  | [] => (seed, seed)
  | _ :: body =>
      (body.foldl (fun a p => XInt.pymin a p.2.1) seed,
       body.foldl (fun a p => XInt.pymin a p.2.2) seed)

/-- A glyph resolver.  `glyphogram` (compose.py line 82) calls
`font.glyph(key, line, fill)`, a method that is not defined anywhere
under `src/` (`ISWAFont` in iswa_font.py provides only `code`,
`svg_snippet` and `complete_svg`).  Modelled from the spec: per §4.4
and §6 the resolver is an external glyph-store capability that returns
the vector fragment for a symbol key under this font, and fails with a
not-found error (modelled as `none`) when the store has no record for
the computed address under this font. -/
structure Font where
  name : String
  glyph : List Char → String → String → Option String

/-- `symbol_group_color` (compose.py lines 15-23). -/
def symbol_group_color : List (String × String) :=
  [("hand", "#0000ff"),
   ("movement", "#ff0000"),
   ("dynamics", "#ff00ff"),
   ("head", "#00ff00"),
   ("trunk", "#000000"),
   ("limb", "#000000"),
   ("location", "#ddaa00"),
   ("punctuation", "#ff5500")]

/-- Dictionary lookup in `symbol_group_color`. -/
def lookupColor (g : String) : Option String :=
  (symbol_group_color.find? fun p => p.1 == g).map (·.2)

/-- One copy of the duplicated centering block of `glyphogram`
(compose.py lines 50-54 and again 55-59): when `bound` is `'c'` or
`'h'`, if `-x_min > x_max` set `x_max = -x_min`, else set
`x_min = -x_max`. -/
def bound_x (bound : Option Char) (x_min x_max : XInt) : XInt × XInt :=
  if bound == some 'c' || bound == some 'h' then
    if XInt.blt x_max x_min.neg then (x_min, x_min.neg) else (x_max.neg, x_max)
  else (x_min, x_max)

/-- The assembled vector document of `glyphogram` (compose.py lines
85-99), kept structurally: overall width and height, the metadata
(source string and font name) and the placed glyph fragments with
their translation offsets, in cluster order. -/
structure SVG where
  width : XInt
  height : XInt
  ksw : String
  fontName : String
  images : List (XInt × XInt × String)
deriving DecidableEq

/-- `glyphogram` (compose.py lines 26-102): parse, compute bounds
(with the duplicated centering block and padding), resolve and place
every body glyph, and assemble the document.  Exceptions (parse
errors, `symbol_type` failures under `colorize`, and glyph-store
lookup failures) propagate as `Except.error`. -/
def glyphogram (ksw_string : String) (pad : Int) (bound : Option Char)
    (line fill : String) (colorize : Bool) (font : Font) :
    Except String SVG := do
  let layout ← parse ksw_string
  match layout with
  | [] => .error "empty layout"
  | (_, xy) :: body =>
      let mins := min_coordinates layout false
      let b1 := bound_x bound mins.1 xy.1
      let b2 := bound_x bound b1.1 b1.2
      let x_max := b2.2.addInt pad
      let x_min := b2.1.addInt (-pad)
      let y_max := xy.2.addInt pad
      let y_min := mins.2.addInt (-pad)
      let images ← body.mapM (fun p => do
        let symbol := p.1
        let key := (symbol.drop 1).take 5
        let lineC ← if colorize then
            match symbol_type_str symbol with
            | some g =>
                match lookupColor g with
                | some col => Except.ok col
                | none => Except.error "KeyError"
            | none => Except.error "Not a valid symbol"
          else Except.ok line
        match font.glyph key lineC fill with
        | some core => Except.ok (XInt.sub p.2.1 x_min, XInt.sub p.2.2 y_min, core)
        | none => Except.error "GlyphNotFound")
      .ok ⟨XInt.sub x_max x_min, XInt.sub y_max y_min, ksw_string, font.name, images⟩

/-- Swap the case of one hexadecimal letter (`a`-`f`, `A`-`F`);
any other character is unchanged. -/
def flipHex (c : Char) : Char :=
  if c = 'a' then 'A' else if c = 'A' then 'a'
  else if c = 'b' then 'B' else if c = 'B' then 'b'
  else if c = 'c' then 'C' else if c = 'C' then 'c'
  else if c = 'd' then 'D' else if c = 'D' then 'd'
  else if c = 'e' then 'E' else if c = 'E' then 'e'
  else if c = 'f' then 'F' else if c = 'F' then 'f'
  else c

/-- Two characters are equal up to (optionally) flipping the case of a
hex letter. -/
def hexAlt (c d : Char) : Prop := d = c ∨ d = flipHex c

/-- Every character class of the regex is invariant under `flipHex`. -/
def FlipCls : Regex → Prop
  | .emp => True
  | .eps => True
  | .cls p => ∀ c, p (flipHex c) = p c
  | .cat a b => FlipCls a ∧ FlipCls b
  | .alt a b => FlipCls a ∧ FlipCls b
  | .star a => FlipCls a

/-- A symbol-start character: `S` or `s` (the only characters the
`SYMBOL_BLOCK` and `re_punc` classes accept in first position, and
which no other character class of the token grammars accepts). -/
@[reducible] def SChar (c : Char) : Prop := c.toLower = 's'

/-- An `x` separator character (`x` or `X` under `re.IGNORECASE`),
counted to distinguish raw from size-expanded symbol suffixes. -/
def isXChar (c : Char) : Bool := c.toLower == 'x'

/-- Every character class of the regex implies `P` (used to transfer
character-level facts from a match to the matched string). -/
def ClsPred (P : Char → Prop) : Regex → Prop
  | .emp => True
  | .eps => True
  | .cls p => ∀ c, p c = true → P c
  | .cat a b => ClsPred P a ∧ ClsPred P b
  | .alt a b => ClsPred P a ∧ ClsPred P b
  | .star a => ClsPred P a

/-- Structural language inclusion between two same-shaped regexes: the
right one accepts at least every character the left one accepts, class
by class. -/
def Covers : Regex → Regex → Prop
  | .emp, _ => True
  | .eps, .eps => True
  | .cls p, .cls q => ∀ c, p c = true → q c = true
  | .cat a b, .cat a' b' => Covers a a' ∧ Covers b b'
  | .alt a b, .alt a' b' => Covers a a' ∧ Covers b b'
  | .star a, .star a' => Covers a a'
  | _, _ => False

/-! ## Supporting lemmas -/

theorem nullable_sound {r : Regex} (h : r.nullable = true) : RMatch r [] := by
  induction r with
  | emp => simp [Regex.nullable] at h
  | eps => exact .eps
  | cls p => simp [Regex.nullable] at h
  | cat a b iha ihb =>
      simp [Regex.nullable] at h
      exact RMatch.cat (iha h.1) (ihb h.2) rfl
  | alt a b iha ihb =>
      simp [Regex.nullable] at h
      rcases h with h | h
      · exact .altL (iha h)
      · exact .altR (ihb h)
  | star a _ => exact .starNil

theorem nullable_complete {r : Regex} (h : RMatch r []) : r.nullable = true := by
  induction r with
  | emp => cases h
  | eps => rfl
  | cls p => cases h
  | cat a b iha ihb =>
      cases h with
      | cat h₁ h₂ heq =>
          rcases List.append_eq_nil.mp heq.symm with ⟨e₁, e₂⟩
          subst e₁; subst e₂
          simp [Regex.nullable, iha h₁, ihb h₂]
  | alt a b iha ihb =>
      cases h with
      | altL h => simp [Regex.nullable, iha h]
      | altR h => simp [Regex.nullable, ihb h]
  | star a _ => rfl

/-- Any match of `star r` is empty or splits off a non-empty first
piece matching `r`. -/
theorem star_first {r : Regex} {x : List Char} (h : RMatch (.star r) x) :
    x = [] ∨ ∃ s₁ s₂, s₁ ≠ [] ∧ x = s₁ ++ s₂ ∧ RMatch r s₁ ∧ RMatch (.star r) s₂ := by
  generalize hr : Regex.star r = q at h
  induction h with
  | eps => exact absurd hr (by simp)
  | cls _ => exact absurd hr (by simp)
  | cat _ _ _ _ _ => exact absurd hr (by simp)
  | altL _ _ => exact absurd hr (by simp)
  | altR _ _ => exact absurd hr (by simp)
  | starNil => exact .inl rfl
  | starCons h₁ h₂ heq ih₁ ih₂ =>
      cases hr
      rename_i s₁ s₂ _
      subst heq
      by_cases hs : s₁ = []
      · subst hs
        simpa using ih₂ rfl
      · exact .inr ⟨s₁, s₂, hs, rfl, h₁, h₂⟩

theorem deriv_sound {r : Regex} {c : Char} {s : List Char}
    (h : RMatch (r.deriv c) s) : RMatch r (c :: s) := by
  induction r generalizing s with
  | emp => cases h
  | eps => cases h
  | cls p =>
      by_cases hp : p c = true
      · simp [Regex.deriv, hp] at h
        cases h
        exact .cls hp
      · simp [Regex.deriv, hp] at h
        cases h
  | cat a b iha ihb =>
      by_cases hn : a.nullable = true
      · simp [Regex.deriv, hn] at h
        cases h with
        | altL h =>
            cases h with
            | cat h₁ h₂ heq =>
                subst heq
                exact RMatch.cat (iha h₁) h₂ (List.cons_append _ _ _).symm
        | altR h =>
            exact RMatch.cat (nullable_sound hn) (ihb h) rfl
      · simp [Regex.deriv, hn] at h
        cases h with
        | cat h₁ h₂ heq =>
            subst heq
            exact RMatch.cat (iha h₁) h₂ (List.cons_append _ _ _).symm
  | alt a b iha ihb =>
      cases h with
      | altL h => exact .altL (iha h)
      | altR h => exact .altR (ihb h)
  | star a iha =>
      cases h with
      | cat h₁ h₂ heq =>
          subst heq
          exact RMatch.starCons (iha h₁) h₂ (List.cons_append _ _ _).symm

theorem deriv_complete {r : Regex} {c : Char} {s : List Char}
    (h : RMatch r (c :: s)) : RMatch (r.deriv c) s := by
  induction r generalizing s with
  | emp => cases h
  | eps => cases h
  | cls p =>
      cases h with
      | cls hp =>
          simp [Regex.deriv, hp]
          exact .eps
  | cat a b iha ihb =>
      cases h with
      | cat h₁ h₂ heq =>
          rename_i s₁ s₂
          cases s₁ with
          | nil =>
              simp at heq
              subst heq
              have hn : a.nullable = true := nullable_complete h₁
              simp [Regex.deriv, hn]
              exact .altR (ihb h₂)
          | cons c₁ s₁' =>
              rw [List.cons_append] at heq
              injection heq with hc hs
              subst hc
              by_cases hn : a.nullable = true
              · simp [Regex.deriv, hn]
                exact .altL (.cat (iha h₁) h₂ hs)
              · simp [Regex.deriv, hn]
                exact .cat (iha h₁) h₂ hs
  | alt a b iha ihb =>
      cases h with
      | altL h => exact .altL (iha h)
      | altR h => exact .altR (ihb h)
  | star a iha =>
      rcases star_first h with h0 | ⟨s₁, s₂, hne, heq, h₁, h₂⟩
      · cases h0
      · cases s₁ with
        | nil => exact absurd rfl hne
        | cons c₁ s₁' =>
            rw [List.cons_append] at heq
            injection heq with hc hs
            subst hc
            exact .cat (iha h₁) h₂ hs

theorem rmatch_iff (r : Regex) (s : List Char) :
    r.rmatch s = true ↔ RMatch r s := by
  induction s generalizing r with
  | nil =>
      constructor
      · exact nullable_sound
      · exact nullable_complete
  | cons c s ih =>
      constructor
      · intro h
        exact deriv_sound ((ih (r.deriv c)).mp h)
      · intro h
        exact (ih (r.deriv c)).mpr (deriv_complete h)

theorem length_dropWhile_le (p : Char → Bool) (l : List Char) :
    (l.dropWhile p).length ≤ l.length := by
  induction l with
  | nil => simp
  | cons c r ih =>
      by_cases hp : p c <;> simp [List.dropWhile_cons, hp] <;> omega


theorem splitAux_of_spaces (s : List Char) (h : ∀ c ∈ s, isPySpace c = true) :
    splitAux s [] = [] := by
  induction s with
  | nil => rfl
  | cons c r ih =>
      have hc : isPySpace c = true := h c (by simp)
      have hr : splitAux r [] = [] := ih (fun x hx => h x (by simp [hx]))
      simp [splitAux, hc, hr]

theorem hexDigitVal_bounds {c : Char} {v : Int} (h : hexDigitVal c = some v) :
    0 ≤ v ∧ v ≤ 15 := by
  unfold hexDigitVal at h
  split_ifs at h <;> (injection h with h'; omega)

theorem hexDigitVal_ne_S {c : Char} {v : Int} (h : hexDigitVal c = some v) :
    c ≠ 'S' := by
  intro he
  rw [he] at h
  simp [show hexDigitVal 'S' = none from rfl] at h

theorem intHex_five {d0 d1 d2 d3 d4 : Char} {v0 v1 v2 v3 v4 : Int}
    (h0 : hexDigitVal d0 = some v0) (h1 : hexDigitVal d1 = some v1)
    (h2 : hexDigitVal d2 = some v2) (h3 : hexDigitVal d3 = some v3)
    (h4 : hexDigitVal d4 = some v4) :
    intHex [d0, d1, d2] = some (256 * v0 + 16 * v1 + v2) ∧
    intHex [d3, d4] = some (16 * v3 + v4) := by
  constructor
  · simp [intHex, h0, h1, h2]
    ring
  · simp [intHex, h3, h4]
    ring

theorem code_five {d0 d1 d2 d3 d4 : Char} {v0 v1 v2 v3 v4 : Int}
    (h0 : hexDigitVal d0 = some v0) (h1 : hexDigitVal d1 = some v1)
    (h2 : hexDigitVal d2 = some v2) (h3 : hexDigitVal d3 = some v3)
    (h4 : hexDigitVal d4 = some v4) :
    code [d0, d1, d2, d3, d4] =
      some (1 + ((256 * v0 + 16 * v1 + v2) - 256) * 96 + (16 * v3 + v4)) := by
  obtain ⟨e1, e2⟩ := intHex_five h0 h1 h2 h3 h4
  have hd0 := hexDigitVal_ne_S h0
  have hh : ([d0, d1, d2, d3, d4] : List Char).head? ≠ some 'S' := by
    simp [hd0]
  simp only [code, if_neg hh]
  have ht : ([d0, d1, d2, d3, d4] : List Char).take 3 = [d0, d1, d2] := rfl
  have hd : (([d0, d1, d2, d3, d4] : List Char).drop 3).take 2 = [d3, d4] := rfl
  rw [ht, hd, e1, e2]

theorem cat_inv {r₁ r₂ : Regex} {s : List Char} (h : RMatch (.cat r₁ r₂) s) :
    ∃ s₁ s₂, s = s₁ ++ s₂ ∧ RMatch r₁ s₁ ∧ RMatch r₂ s₂ := by
  cases h with
  | cat h₁ h₂ he => exact ⟨_, _, he, h₁, h₂⟩

theorem cls_inv {p : Char → Bool} {s : List Char} (h : RMatch (.cls p) s) :
    ∃ c, s = [c] ∧ p c = true := by
  cases h with
  | cls hp => exact ⟨_, rfl, hp⟩

theorem eps_inv {s : List Char} (h : RMatch .eps s) : s = [] := by
  cases h
  rfl

theorem alt_inv {r₁ r₂ : Regex} {s : List Char} (h : RMatch (.alt r₁ r₂) s) :
    RMatch r₁ s ∨ RMatch r₂ s := by
  cases h with
  | altL h => exact .inl h
  | altR h => exact .inr h

theorem emp_inv {s : List Char} (h : RMatch .emp s) : False := by
  cases h

theorem rmatch_chars {P : Char → Prop} {r : Regex} {s : List Char}
    (h : RMatch r s) : ClsPred P r → ∀ c ∈ s, P c := by
  induction h with
  | eps => intro _ c hc; simp at hc
  | cls hp =>
      intro hr c hc
      simp at hc
      subst hc
      exact hr _ hp
  | cat h₁ h₂ he ih₁ ih₂ =>
      intro hr c hc
      simp only [ClsPred] at hr
      subst he
      rcases List.mem_append.mp hc with h | h
      · exact ih₁ hr.1 c h
      · exact ih₂ hr.2 c h
  | altL h ih =>
      intro hr
      simp only [ClsPred] at hr
      exact ih hr.1
  | altR h ih =>
      intro hr
      simp only [ClsPred] at hr
      exact ih hr.2
  | starNil => intro _ c hc; simp at hc
  | starCons h₁ h₂ he ih₁ ih₂ =>
      intro hr c hc
      have hr' : ClsPred P _ := hr
      simp only [ClsPred] at hr'
      subst he
      rcases List.mem_append.mp hc with h | h
      · exact ih₁ hr' c h
      · exact ih₂ hr c h

theorem rmatch_covers {r r' : Regex} {s : List Char}
    (h : RMatch r s) : Covers r r' → RMatch r' s := by
  induction h generalizing r' with
  | eps =>
      intro hc
      cases r' <;> simp only [Covers] at hc
      exact .eps
  | cls hp =>
      intro hc
      cases r' <;> simp only [Covers] at hc
      exact .cls (hc _ hp)
  | cat h₁ h₂ he ih₁ ih₂ =>
      intro hc
      cases r' <;> simp only [Covers] at hc
      exact .cat (ih₁ hc.1) (ih₂ hc.2) he
  | altL h ih =>
      intro hc
      cases r' <;> simp only [Covers] at hc
      exact .altL (ih hc.1)
  | altR h ih =>
      intro hc
      cases r' <;> simp only [Covers] at hc
      exact .altR (ih hc.2)
  | starNil =>
      intro hc
      cases r' <;> simp only [Covers] at hc
      exact .starNil
  | starCons h₁ h₂ he ih₁ ih₂ =>
      intro hc
      cases r' <;> simp only [Covers] at hc
      exact .starCons (ih₁ hc) (ih₂ hc) he

theorem punc_cs_shape {s : List Char} (h : RMatch PUNC_CS s) :
    ∃ c4 c5 c6, s = ['S', '3', '8', c4, c5, c6] := by
  simp only [PUNC_CS, rcat, List.foldr] at h
  obtain ⟨s1, t1, he1, h1, h⟩ := cat_inv h
  obtain ⟨a1, rfl, ha1⟩ := cls_inv h1
  obtain ⟨s2, t2, he2, h2, h⟩ := cat_inv h
  obtain ⟨a2, rfl, ha2⟩ := cls_inv h2
  obtain ⟨s3, t3, he3, h3, h⟩ := cat_inv h
  obtain ⟨a3, rfl, ha3⟩ := cls_inv h3
  obtain ⟨s4, t4, he4, h4, h⟩ := cat_inv h
  obtain ⟨a4, rfl, _⟩ := cls_inv h4
  obtain ⟨s5, t5, he5, h5, h⟩ := cat_inv h
  obtain ⟨a5, rfl, _⟩ := cls_inv h5
  obtain ⟨s6, t6, he6, h6, h⟩ := cat_inv h
  obtain ⟨a6, rfl, _⟩ := cls_inv h6
  have ht := eps_inv h
  subst ht
  have e1 : a1 = 'S' := by simpa using ha1
  have e2 : a2 = '3' := by simpa using ha2
  have e3 : a3 = '8' := by simpa using ha3
  subst e1; subst e2; subst e3
  refine ⟨a4, a5, a6, ?_⟩
  subst he6; subst he5; subst he4; subst he3; subst he2; subst he1
  rfl

theorem punc_cs_noA : ClsPred (· ≠ 'A') PUNC_CS := by
  simp only [PUNC_CS, rcat, List.foldr, ClsPred, chr1]
  repeat' apply And.intro
  all_goals first
    | trivial
    | (intro c hc he; subst he; revert hc; decide)

theorem coord_cs_noA : ClsPred (· ≠ 'A') COORD_BLOCK_CS := by
  simp only [COORD_BLOCK_CS, rcat, List.foldr, ClsPred, chr1, ropt, rplus]
  repeat' apply And.intro
  all_goals first
    | trivial
    | (intro c hc he; subst he; revert hc; decide)

theorem optn_cs_noX : ClsPred (· ≠ 'x') (ropt (chr1 'n')) := by
  simp only [ClsPred, ropt, chr1]
  repeat' apply And.intro
  all_goals first
    | trivial
    | (intro c hc he; subst he; revert hc; decide)

theorem digits_cs_noX : ClsPred (· ≠ 'x') (rplus (.cls isDig)) := by
  simp only [ClsPred, rplus]
  repeat' apply And.intro
  all_goals first
    | trivial
    | (intro c hc he; subst he; revert hc; decide)

theorem coord_cs_covers : Covers COORD_BLOCK_CS COORD_BLOCK := by
  simp only [COORD_BLOCK_CS, COORD_BLOCK, Covers, rcat, List.foldr, ropt,
    rplus, chr1, ichr]
  repeat' apply And.intro
  all_goals first
    | trivial
    | (exact fun c hc => hc)
    | (intro c hc; simp only [beq_iff_eq] at hc; subst hc; decide)

/-- Decompose a case-sensitive coordinate match into its two number
parts around the separating `x`. -/
theorem coord_cs_parts {s : List Char} (h : RMatch COORD_BLOCK_CS s) :
    ∃ u v, s = u ++ 'x' :: v ∧ RMatch NUM_CS u ∧ RMatch NUM_CS v ∧
      (∀ c ∈ u, c ≠ 'x') ∧ (∀ c ∈ v, c ≠ 'x') := by
  simp only [COORD_BLOCK_CS, rcat, List.foldr] at h
  obtain ⟨o1, t1, he1, ho1, h⟩ := cat_inv h
  obtain ⟨d1, t2, he2, hd1, h⟩ := cat_inv h
  obtain ⟨sx, t3, he3, hx, h⟩ := cat_inv h
  obtain ⟨xc, rfl, hxc⟩ := cls_inv hx
  obtain ⟨o2, t4, he4, ho2, h⟩ := cat_inv h
  obtain ⟨d2, t5, he5, hd2, h⟩ := cat_inv h
  have ht := eps_inv h
  subst ht
  have ex : xc = 'x' := by simpa using hxc
  subst ex
  have hu1 := rmatch_chars ho1 optn_cs_noX
  have hu2 := rmatch_chars hd1 digits_cs_noX
  have hv1 := rmatch_chars ho2 optn_cs_noX
  have hv2 := rmatch_chars hd2 digits_cs_noX
  refine ⟨o1 ++ d1, o2 ++ d2, ?_, .cat ho1 hd1 rfl, .cat ho2 hd2 rfl, ?_, ?_⟩
  · subst he5; subst he4; subst he3; subst he2; subst he1
    simp
  · intro c hc
    rcases List.mem_append.mp hc with h | h
    · exact hu1 c h
    · exact hu2 c h
  · intro c hc
    rcases List.mem_append.mp hc with h | h
    · exact hv1 c h
    · exact hv2 c h

theorem splitOnChar_no_sep {sep : Char} {v : List Char}
    (h : ∀ c ∈ v, c ≠ sep) : splitOnChar sep v = [v] := by
  induction v with
  | nil => rfl
  | cons c r ih =>
      have hc : (c == sep) = false := by simpa using h c (by simp)
      have hr := ih (fun x hx => h x (by simp [hx]))
      simp [splitOnChar, hc, hr]

theorem splitOnChar_mid {sep : Char} {u v : List Char}
    (hu : ∀ c ∈ u, c ≠ sep) (hv : ∀ c ∈ v, c ≠ sep) :
    splitOnChar sep (u ++ sep :: v) = [u, v] := by
  induction u with
  | nil => simp [splitOnChar, splitOnChar_no_sep hv]
  | cons c r ih =>
      have hc : (c == sep) = false := by simpa using hu c (by simp)
      have hr := ih (fun x hx => hu x (by simp [hx]))
      simp [splitOnChar, hc, hr]

theorem swnumber_ok {u : List Char} (h : RMatch NUM_CS u) :
    ∃ z, swnumber u = .ok z := by
  have hb : NUM_CS.rmatch u = true := (rmatch_iff _ _).mpr h
  unfold swnumber
  rw [if_pos hb]
  by_cases hh : u.head? = some 'n'
  · rw [if_pos hh]; exact ⟨_, rfl⟩
  · rw [if_neg hh]; exact ⟨_, rfl⟩

theorem coordinates_cs_ok {s : List Char} (h : RMatch COORD_BLOCK_CS s) :
    ∃ x y, coordinates s = .ok (x, y) := by
  obtain ⟨u, v, rfl, hu, hv, hxu, hxv⟩ := coord_cs_parts h
  have hci : COORD_BLOCK.rmatch (u ++ 'x' :: v) = true :=
    (rmatch_iff _ _).mpr (rmatch_covers h coord_cs_covers)
  unfold coordinates
  rw [if_pos hci, splitOnChar_mid hxu hxv]
  obtain ⟨z1, hz1⟩ := swnumber_ok hu
  obtain ⟨z2, hz2⟩ := swnumber_ok hv
  refine ⟨z1, z2, ?_⟩
  show (do
    let x ← swnumber u
    let y ← swnumber v
    Except.ok (x, y)) = Except.ok (z1, z2)
  rw [hz1, hz2]
  rfl

theorem pyReplaceF_A {t : List Char} :
    ∀ (fuel : Nat) (s : List Char), s.length ≤ fuel → 'A' ∉ s →
      pyReplaceF fuel s ('A' :: t) = s := by
  intro fuel
  induction fuel with
  | zero =>
      intro s hl _
      cases s with
      | nil => rfl
      | cons c r => simp at hl
  | succ n ih =>
      intro s hl hA
      cases s with
      | nil => rfl
      | cons c r =>
          have hc : ('A' == c) = false := by
            simp only [beq_eq_false_iff_ne, ne_eq]
            intro he
            exact hA (by simp [← he])
          have hp : ('A' :: t).isPrefixOf (c :: r) = false := by
            simp [List.isPrefixOf, hc]
          simp only [pyReplaceF, hp, Bool.and_false, Bool.false_eq_true,
            if_false]
          have := ih r (by simpa using Nat.le_of_succ_le_succ (by simpa using hl))
            (fun hm => hA (by simp [hm]))
          rw [this]

theorem pyReplace_A {s : List Char} (h : 'A' ∉ s) (t : List Char) :
    pyReplace s ('A' :: t) = s :=
  pyReplaceF_A s.length s le_rfl h

theorem except_bind_ok {ε α β : Type} (a : α) (f : α → Except ε β) :
    (Except.ok a >>= f) = f a := rfl

theorem except_bind_error {ε α β : Type} (e : ε) (f : α → Except ε β) :
    ((Except.error e : Except ε α) >>= f) = .error e := rfl

theorem bind_ok_inv {ε α β : Type} {m : Except ε α} {f : α → Except ε β}
    {r : β} (h : (m >>= f) = .ok r) : ∃ a, m = .ok a ∧ f a = .ok r := by
  cases m with
  | error e => exact absurd h (by simp [except_bind_error])
  | ok a => exact ⟨a, rfl, h⟩

theorem mapM_ok_forall {α β : Type} {f : α → Except String β} {l : List α}
    {r : List β} (h : l.mapM f = .ok r) : ∀ a ∈ l, ∃ b, f a = .ok b := by
  induction l generalizing r with
  | nil => intro a ha; simp at ha
  | cons c t ih =>
      intro a ha
      rw [List.mapM_cons] at h
      cases hf : f c with
      | error e =>
          rw [hf, except_bind_error] at h
          exact absurd h (by simp)
      | ok b =>
          rw [hf, except_bind_ok] at h
          cases hm : t.mapM f with
          | error e =>
              rw [hm, except_bind_error] at h
              exact absurd h (by simp)
          | ok rs =>
              rcases List.mem_cons.mp ha with rfl | hmem
              · exact ⟨b, hf⟩
              · exact ih hm a hmem

/-- Evaluation of `parseL` through the punctuation alternative of the
structural regex. -/
theorem parseL_punct {c1 c2 c3 c4 c5 c6 : Char} {rest : List Char} {x y : Int}
    (hpre : prefix_symbols (c1 :: c2 :: c3 :: c4 :: c5 :: c6 :: rest) = [])
    (hrep : pyReplace (c1 :: c2 :: c3 :: c4 :: c5 :: c6 :: rest) ['A'] =
      c1 :: c2 :: c3 :: c4 :: c5 :: c6 :: rest)
    (hp : PUNC_CS.rmatch [c1, c2, c3, c4, c5, c6] = true)
    (hcs : COORD_BLOCK_CS.rmatch rest = true)
    (hco : coordinates rest = .ok (x, y)) :
    parseL (c1 :: c2 :: c3 :: c4 :: c5 :: c6 :: rest) =
      .ok [(['B'], XInt.int (-x), XInt.int (-y)),
           ([c1, c2, c3, c4, c5, c6], XInt.int x, XInt.int y)] := by
  unfold parseL
  simp only [List.isEmpty_cons, Bool.false_eq_true, if_false, hpre,
    List.flatten_nil, hrep, hp, hcs, Bool.and_self, if_true, hco]
  rfl

theorem flipHex_eq_self {c : Char} (h1 : c ≠ 'a') (h2 : c ≠ 'A') (h3 : c ≠ 'b')
    (h4 : c ≠ 'B') (h5 : c ≠ 'c') (h6 : c ≠ 'C') (h7 : c ≠ 'd') (h8 : c ≠ 'D')
    (h9 : c ≠ 'e') (h10 : c ≠ 'E') (h11 : c ≠ 'f') (h12 : c ≠ 'F') :
    flipHex c = c := by
  unfold flipHex
  rw [if_neg h1, if_neg h2, if_neg h3, if_neg h4, if_neg h5, if_neg h6,
      if_neg h7, if_neg h8, if_neg h9, if_neg h10, if_neg h11, if_neg h12]

theorem flip_pred_eq (p : Char → Bool) (ha : p 'A' = p 'a') (hb : p 'B' = p 'b')
    (hc : p 'C' = p 'c') (hd : p 'D' = p 'd') (he : p 'E' = p 'e')
    (hf : p 'F' = p 'f') : ∀ c, p (flipHex c) = p c := by
  intro c
  by_cases h1 : c = 'a'
  · subst h1; exact ha
  by_cases h2 : c = 'A'
  · subst h2; exact ha.symm
  by_cases h3 : c = 'b'
  · subst h3; exact hb
  by_cases h4 : c = 'B'
  · subst h4; exact hb.symm
  by_cases h5 : c = 'c'
  · subst h5; exact hc
  by_cases h6 : c = 'C'
  · subst h6; exact hc.symm
  by_cases h7 : c = 'd'
  · subst h7; exact hd
  by_cases h8 : c = 'D'
  · subst h8; exact hd.symm
  by_cases h9 : c = 'e'
  · subst h9; exact he
  by_cases h10 : c = 'E'
  · subst h10; exact he.symm
  by_cases h11 : c = 'f'
  · subst h11; exact hf
  by_cases h12 : c = 'F'
  · subst h12; exact hf.symm
  rw [flipHex_eq_self h1 h2 h3 h4 h5 h6 h7 h8 h9 h10 h11 h12]

theorem flipHex_invol (c : Char) : flipHex (flipHex c) = c := by
  by_cases h1 : c = 'a'
  · subst h1; rfl
  by_cases h2 : c = 'A'
  · subst h2; rfl
  by_cases h3 : c = 'b'
  · subst h3; rfl
  by_cases h4 : c = 'B'
  · subst h4; rfl
  by_cases h5 : c = 'c'
  · subst h5; rfl
  by_cases h6 : c = 'C'
  · subst h6; rfl
  by_cases h7 : c = 'd'
  · subst h7; rfl
  by_cases h8 : c = 'D'
  · subst h8; rfl
  by_cases h9 : c = 'e'
  · subst h9; rfl
  by_cases h10 : c = 'E'
  · subst h10; rfl
  by_cases h11 : c = 'f'
  · subst h11; rfl
  by_cases h12 : c = 'F'
  · subst h12; rfl
  have e := flipHex_eq_self h1 h2 h3 h4 h5 h6 h7 h8 h9 h10 h11 h12
  rw [e, e]

theorem flipHex_toLower (c : Char) : (flipHex c).toLower = c.toLower := by
  by_cases h1 : c = 'a'
  · subst h1; decide
  by_cases h2 : c = 'A'
  · subst h2; decide
  by_cases h3 : c = 'b'
  · subst h3; decide
  by_cases h4 : c = 'B'
  · subst h4; decide
  by_cases h5 : c = 'c'
  · subst h5; decide
  by_cases h6 : c = 'C'
  · subst h6; decide
  by_cases h7 : c = 'd'
  · subst h7; decide
  by_cases h8 : c = 'D'
  · subst h8; decide
  by_cases h9 : c = 'e'
  · subst h9; decide
  by_cases h10 : c = 'E'
  · subst h10; decide
  by_cases h11 : c = 'f'
  · subst h11; decide
  by_cases h12 : c = 'F'
  · subst h12; decide
  rw [flipHex_eq_self h1 h2 h3 h4 h5 h6 h7 h8 h9 h10 h11 h12]

theorem isDig_flip : ∀ c, isDig (flipHex c) = isDig c :=
  flip_pred_eq isDig (by decide) (by decide) (by decide) (by decide)
    (by decide) (by decide)

theorem isHexCI_flip : ∀ c, isHexCI (flipHex c) = isHexCI c := by
  intro c
  unfold isHexCI
  rw [flipHex_toLower]

theorem isD123_flip : ∀ c, isD123 (flipHex c) = isD123 c :=
  flip_pred_eq isD123 (by decide) (by decide) (by decide) (by decide)
    (by decide) (by decide)

theorem isD05_flip : ∀ c, isD05 (flipHex c) = isD05 c :=
  flip_pred_eq isD05 (by decide) (by decide) (by decide) (by decide)
    (by decide) (by decide)

theorem isPuncDigCI_flip : ∀ c, isPuncDigCI (flipHex c) = isPuncDigCI c :=
  flip_pred_eq isPuncDigCI (by decide) (by decide) (by decide) (by decide)
    (by decide) (by decide)

theorem isMarkerCI_flip : ∀ c, isMarkerCI (flipHex c) = isMarkerCI c :=
  flip_pred_eq isMarkerCI (by decide) (by decide) (by decide) (by decide)
    (by decide) (by decide)

theorem underscore_flip : ∀ c, (flipHex c == '_') = (c == '_') :=
  flip_pred_eq (fun c => c == '_') (by decide) (by decide) (by decide)
    (by decide) (by decide) (by decide)

theorem isPySpace_flip : ∀ c, isPySpace (flipHex c) = isPySpace c :=
  flip_pred_eq isPySpace (by decide) (by decide) (by decide) (by decide)
    (by decide) (by decide)

theorem ichr_flip (a : Char) :
    ∀ c, ((flipHex c).toLower == a) = (c.toLower == a) := by
  intro c
  rw [flipHex_toLower]

set_option maxHeartbeats 2000000 in
theorem flipcls_tokens :
    FlipCls RAW_TOKEN ∧ FlipCls EXPANDED_TOKEN ∧ FlipCls LAYOUT_TOKEN ∧
    FlipCls PANEL_TOKEN := by
  simp only [RAW_TOKEN, EXPANDED_TOKEN, LAYOUT_TOKEN, PANEL_TOKEN, re_word,
    re_pword, re_lword, re_panelword, re_punc, re_ppunc, re_lpunc, pre_word,
    markerRe, SYMBOL_BLOCK, COORD_BLOCK, POS_COORD_BLOCK, rcat, List.foldr,
    ropt, rplus, ichr, FlipCls]
  repeat' apply And.intro
  all_goals first
    | trivial
    | exact ichr_flip _
    | exact underscore_flip
    | (refine flip_pred_eq _ ?_ ?_ ?_ ?_ ?_ ?_ <;> decide)

theorem hexAlt_symm {c d : Char} (h : hexAlt c d) : hexAlt d c := by
  rcases h with rfl | rfl
  · exact .inl rfl
  · exact .inr (flipHex_invol c).symm

theorem forall₂_hexAlt_symm {a b : List Char} (h : List.Forall₂ hexAlt a b) :
    List.Forall₂ hexAlt b a := by
  induction h with
  | nil => exact .nil
  | cons hcd hrest ih => exact .cons (hexAlt_symm hcd) ih

theorem forall₂_append_split {α β : Type} {R : α → β → Prop}
    {s1 s2 : List α} {t : List β} (h : List.Forall₂ R (s1 ++ s2) t) :
    ∃ t1 t2, t = t1 ++ t2 ∧ List.Forall₂ R s1 t1 ∧ List.Forall₂ R s2 t2 := by
  induction s1 generalizing t with
  | nil => exact ⟨[], t, rfl, .nil, h⟩
  | cons c r ih =>
      cases h with
      | cons hcd hrest =>
          obtain ⟨t1, t2, rfl, g1, g2⟩ := ih hrest
          exact ⟨_ :: t1, t2, rfl, .cons hcd g1, g2⟩

theorem rmatch_flip {r : Regex} {s t : List Char} (h : RMatch r s)
    (hf : FlipCls r) (hrel : List.Forall₂ hexAlt s t) : RMatch r t := by
  induction h generalizing t with
  | eps => cases hrel; exact .eps
  | cls hp =>
      cases hrel with
      | cons hcd hnil =>
          cases hnil
          rcases hcd with rfl | rfl
          · exact .cls hp
          · exact .cls ((hf _).trans hp)
  | cat h₁ h₂ he ih₁ ih₂ =>
      subst he
      obtain ⟨t1, t2, rfl, g1, g2⟩ := forall₂_append_split hrel
      exact .cat (ih₁ hf.1 g1) (ih₂ hf.2 g2) rfl
  | altL h ih => exact .altL (ih hf.1 hrel)
  | altR h ih => exact .altR (ih hf.2 hrel)
  | starNil => cases hrel; exact .starNil
  | starCons h₁ h₂ he ih₁ ih₂ =>
      subst he
      obtain ⟨t1, t2, rfl, g1, g2⟩ := forall₂_append_split hrel
      exact .starCons (ih₁ hf g1) (ih₂ hf g2) rfl

theorem rmatch_flip_eq {r : Regex} {a b : List Char} (hf : FlipCls r)
    (hrel : List.Forall₂ hexAlt a b) : r.rmatch a = r.rmatch b := by
  have hrel' : List.Forall₂ hexAlt b a := forall₂_hexAlt_symm hrel
  by_cases hA : r.rmatch a = true
  · have := (rmatch_iff _ _).mpr (rmatch_flip ((rmatch_iff _ _).mp hA) hf hrel)
    rw [hA, this]
  · by_cases hB : r.rmatch b = true
    · exact absurd ((rmatch_iff _ _).mpr
        (rmatch_flip ((rmatch_iff _ _).mp hB) hf hrel')) hA
    · rw [Bool.not_eq_true] at hA hB
      rw [hA, hB]

theorem splitAux_hexAlt {s t : List Char} (h : List.Forall₂ hexAlt s t) :
    ∀ {a1 a2 : List Char}, List.Forall₂ hexAlt a1 a2 →
      List.Forall₂ (List.Forall₂ hexAlt) (splitAux s a1) (splitAux t a2) := by
  induction h with
  | nil =>
      intro a1 a2 ha
      cases ha with
      | nil => exact .nil
      | cons hc hrest =>
          simp only [splitAux, List.isEmpty_cons, Bool.false_eq_true, if_false]
          exact .cons (List.forall₂_reverse_iff.mpr (.cons hc hrest)) .nil
  | cons hcd hrest ih =>
      intro a1 a2 ha
      rename_i c d s' t'
      have hsp : isPySpace d = isPySpace c := by
        rcases hcd with rfl | rfl
        · rfl
        · exact isPySpace_flip c
      by_cases hspace : isPySpace c = true
      · have hd : isPySpace d = true := by rw [hsp, hspace]
        cases ha with
        | nil =>
            simp only [splitAux, hspace, hd, if_true, List.isEmpty_nil]
            exact ih .nil
        | cons hc' hrest' =>
            simp only [splitAux, hspace, hd, if_true, List.isEmpty_cons,
              Bool.false_eq_true, if_false]
            exact .cons (List.forall₂_reverse_iff.mpr (.cons hc' hrest'))
              (ih .nil)
      · have hd : isPySpace d = false := by
          rw [hsp]
          simpa using hspace
        simp only [splitAux, hspace, hd, Bool.false_eq_true, if_false]
        exact ih (.cons hcd ha)

theorem all_rmatch_hexAlt {r : Regex} (hf : FlipCls r)
    {L1 L2 : List (List Char)}
    (h : List.Forall₂ (List.Forall₂ hexAlt) L1 L2) :
    (L1.all fun u => r.rmatch u) = (L2.all fun u => r.rmatch u) := by
  induction h with
  | nil => rfl
  | cons hcd hrest ih =>
      simp only [List.all_cons, ih, rmatch_flip_eq hf hcd]

theorem isDig_not_SChar {c : Char} (h : isDig c = true) : ¬SChar c := by
  have hm : c ∈ "0123456789".toList := by simpa [isDig] using h
  fin_cases hm <;> decide

theorem isD123_not_SChar {c : Char} (h : isD123 c = true) : ¬SChar c := by
  have hm : c ∈ "123".toList := by simpa [isD123] using h
  fin_cases hm <;> decide

theorem isD05_not_SChar {c : Char} (h : isD05 c = true) : ¬SChar c := by
  have hm : c ∈ "012345".toList := by simpa [isD05] using h
  fin_cases hm <;> decide

theorem isHexCI_not_SChar {c : Char} (h : isHexCI c = true) : ¬SChar c := by
  intro hs
  unfold isHexCI at h
  rw [show c.toLower = 's' from hs] at h
  revert h
  decide

theorem isPuncDigCI_not_SChar {c : Char} (h : isPuncDigCI c = true) : ¬SChar c := by
  intro hs
  unfold isPuncDigCI at h
  rw [show c.toLower = 's' from hs] at h
  revert h
  decide

theorem isMarkerCI_not_SChar {c : Char} (h : isMarkerCI c = true) : ¬SChar c := by
  intro hs
  unfold isMarkerCI at h
  rw [show c.toLower = 's' from hs] at h
  revert h
  decide

theorem toLowerLit_not_SChar {a : Char} (ha : a ≠ 's') {c : Char}
    (h : (c.toLower == a) = true) : ¬SChar c := by
  intro hs
  rw [show c.toLower = 's' from hs] at h
  have he : 's' = a := by simpa using h
  exact ha he.symm

theorem lit_isXChar {a c : Char} (h : (c.toLower == a) = true) :
    isXChar c = (a == 'x') := by
  unfold isXChar
  rw [show c.toLower = a from by simpa using h]

theorem isDig_isXChar {c : Char} (h : isDig c = true) : isXChar c = false := by
  have hm : c ∈ "0123456789".toList := by simpa [isDig] using h
  fin_cases hm <;> decide

theorem coordCI_noS : ClsPred (fun c => ¬SChar c) COORD_BLOCK := by
  simp only [COORD_BLOCK, rcat, List.foldr, ClsPred, ropt, rplus, ichr]
  repeat' apply And.intro
  all_goals first
    | trivial
    | exact fun c h => isDig_not_SChar h
    | exact fun c h => toLowerLit_not_SChar (by decide) h

theorem posCI_noS : ClsPred (fun c => ¬SChar c) POS_COORD_BLOCK := by
  simp only [POS_COORD_BLOCK, rcat, List.foldr, ClsPred, ropt, rplus, ichr]
  repeat' apply And.intro
  all_goals first
    | trivial
    | exact fun c h => isDig_not_SChar h
    | exact fun c h => toLowerLit_not_SChar (by decide) h

theorem optn_noX : ClsPred (fun c => isXChar c = false) (ropt (ichr 'n')) := by
  simp only [ClsPred, ropt, ichr]
  refine ⟨?_, trivial⟩
  intro c h
  rw [lit_isXChar h]
  decide

theorem digits_noX : ClsPred (fun c => isXChar c = false)
    (rplus (.cls isDig)) := by
  simp only [ClsPred, rplus]
  exact ⟨fun c h => isDig_isXChar h, fun c h => isDig_isXChar h⟩

theorem countP_zero_of {p : Char → Bool} {l : List Char}
    (h : ∀ x ∈ l, p x = false) : l.countP p = 0 := by
  rw [List.countP_eq_zero]
  intro a ha
  simp [h a ha]

theorem sym_shape {u : List Char} (h : RMatch SYMBOL_BLOCK u) :
    ∃ c r, u = c :: r ∧ SChar c ∧ r.length = 5 ∧ ∀ x ∈ r, ¬SChar x := by
  simp only [SYMBOL_BLOCK, rcat, List.foldr, ichr] at h
  obtain ⟨s1, t1, he1, h1, h⟩ := cat_inv h
  obtain ⟨a1, rfl, ha1⟩ := cls_inv h1
  obtain ⟨s2, t2, he2, h2, h⟩ := cat_inv h
  obtain ⟨a2, rfl, ha2⟩ := cls_inv h2
  obtain ⟨s3, t3, he3, h3, h⟩ := cat_inv h
  obtain ⟨a3, rfl, ha3⟩ := cls_inv h3
  obtain ⟨s4, t4, he4, h4, h⟩ := cat_inv h
  obtain ⟨a4, rfl, ha4⟩ := cls_inv h4
  obtain ⟨s5, t5, he5, h5, h⟩ := cat_inv h
  obtain ⟨a5, rfl, ha5⟩ := cls_inv h5
  obtain ⟨s6, t6, he6, h6, h⟩ := cat_inv h
  obtain ⟨a6, rfl, ha6⟩ := cls_inv h6
  have ht := eps_inv h
  subst ht
  subst he6; subst he5; subst he4; subst he3; subst he2; subst he1
  refine ⟨a1, [a2, a3, a4, a5, a6], ?_, ?_, rfl, ?_⟩
  · simp
  · simpa using ha1
  intro x hx
  rcases List.mem_cons.mp hx with rfl | hx
  · exact isD123_not_SChar ha2
  rcases List.mem_cons.mp hx with rfl | hx
  · exact isHexCI_not_SChar ha3
  rcases List.mem_cons.mp hx with rfl | hx
  · exact isHexCI_not_SChar ha4
  rcases List.mem_cons.mp hx with rfl | hx
  · exact isD05_not_SChar ha5
  rcases List.mem_cons.mp hx with rfl | hx
  · exact isHexCI_not_SChar ha6
  simp at hx

theorem punc_shape_ci {u : List Char} (h : RMatch re_punc u) :
    ∃ c r, u = c :: r ∧ SChar c ∧ r.length = 5 := by
  simp only [re_punc, rcat, List.foldr, ichr] at h
  obtain ⟨s1, t1, he1, h1, h⟩ := cat_inv h
  obtain ⟨a1, rfl, ha1⟩ := cls_inv h1
  obtain ⟨s2, t2, he2, h2, h⟩ := cat_inv h
  obtain ⟨a2, rfl, _⟩ := cls_inv h2
  obtain ⟨s3, t3, he3, h3, h⟩ := cat_inv h
  obtain ⟨a3, rfl, _⟩ := cls_inv h3
  obtain ⟨s4, t4, he4, h4, h⟩ := cat_inv h
  obtain ⟨a4, rfl, _⟩ := cls_inv h4
  obtain ⟨s5, t5, he5, h5, h⟩ := cat_inv h
  obtain ⟨a5, rfl, _⟩ := cls_inv h5
  obtain ⟨s6, t6, he6, h6, h⟩ := cat_inv h
  obtain ⟨a6, rfl, _⟩ := cls_inv h6
  have ht := eps_inv h
  subst ht
  subst he6; subst he5; subst he4; subst he3; subst he2; subst he1
  refine ⟨a1, [a2, a3, a4, a5, a6], ?_, ?_, rfl⟩
  · simp
  · simpa using ha1

theorem rplus_digits_len {u : List Char}
    (h : RMatch (rplus (.cls isDig)) u) : 1 ≤ u.length := by
  obtain ⟨s1, t1, rfl, h1, _⟩ := cat_inv h
  obtain ⟨c, rfl, _⟩ := cls_inv h1
  simp

theorem coord_parts_ci {v : List Char} (h : RMatch COORD_BLOCK v) :
    (∀ x ∈ v, ¬SChar x) ∧ v.countP isXChar = 1 := by
  refine ⟨rmatch_chars h coordCI_noS, ?_⟩
  simp only [COORD_BLOCK, rcat, List.foldr] at h
  obtain ⟨o1, t1, rfl, ho1, g1⟩ := cat_inv h
  obtain ⟨d1, t2, rfl, hd1, g2⟩ := cat_inv g1
  obtain ⟨sx, t3, rfl, hx, g3⟩ := cat_inv g2
  obtain ⟨xc, rfl, hxc⟩ := cls_inv hx
  obtain ⟨o2, t4, rfl, ho2, g4⟩ := cat_inv g3
  obtain ⟨d2, t5, rfl, hd2, g5⟩ := cat_inv g4
  have ht := eps_inv g5
  subst ht
  have z1 := countP_zero_of (rmatch_chars ho1 optn_noX)
  have z2 := countP_zero_of (rmatch_chars hd1 digits_noX)
  have z3 := countP_zero_of (rmatch_chars ho2 optn_noX)
  have z4 := countP_zero_of (rmatch_chars hd2 digits_noX)
  have hxc' : isXChar xc = true := hxc
  simp [List.countP_append, List.countP_cons, z1, z2, z3, z4, hxc']

theorem pos_parts_ci {v : List Char} (h : RMatch POS_COORD_BLOCK v) :
    (∀ x ∈ v, ¬SChar x) ∧ v.countP isXChar = 1 ∧ 3 ≤ v.length := by
  refine ⟨rmatch_chars h posCI_noS, ?_, ?_⟩ <;>
    (simp only [POS_COORD_BLOCK, rcat, List.foldr] at h
     obtain ⟨d1, t1, rfl, hd1, g1⟩ := cat_inv h
     obtain ⟨sx, t2, rfl, hx, g2⟩ := cat_inv g1
     obtain ⟨xc, rfl, hxc⟩ := cls_inv hx
     obtain ⟨d2, t3, rfl, hd2, g3⟩ := cat_inv g2
     have ht := eps_inv g3
     subst ht)
  · have z1 := countP_zero_of (rmatch_chars hd1 digits_noX)
    have z2 := countP_zero_of (rmatch_chars hd2 digits_noX)
    have hxc' : isXChar xc = true := hxc
    simp [List.countP_append, List.countP_cons, z1, z2, hxc']
  · have l1 := rplus_digits_len hd1
    have l2 := rplus_digits_len hd2
    simp only [List.length_append, List.length_cons]
    omega

theorem isMarkerCI_not_a {c : Char} (h : isMarkerCI c = true) :
    c.toLower ≠ 'a' := by
  intro ha
  unfold isMarkerCI at h
  rw [ha] at h
  revert h
  decide

theorem bodyRaw_parts {w : List Char}
    (h : RMatch (.cat SYMBOL_BLOCK COORD_BLOCK) w) :
    ∃ u v, w = u ++ v ∧ u.length = 6 ∧ (∃ c r, u = c :: r ∧ SChar c) ∧
      (∀ x ∈ v, ¬SChar x) ∧ v.countP isXChar = 1 := by
  obtain ⟨u, v, rfl, hu, hv⟩ := cat_inv h
  obtain ⟨c, r, rfl, hc, hlen, _⟩ := sym_shape hu
  obtain ⟨hnoS, hcount⟩ := coord_parts_ci hv
  exact ⟨c :: r, v, rfl, by simp [hlen], ⟨c, r, rfl, hc⟩, hnoS, hcount⟩

theorem bodyExp_parts {w : List Char}
    (h : RMatch (rcat [SYMBOL_BLOCK, POS_COORD_BLOCK, ichr 'x', COORD_BLOCK]) w) :
    ∃ u v, w = u ++ v ∧ u.length = 6 ∧ (∃ c r, u = c :: r ∧ SChar c) ∧
      (∀ x ∈ v, ¬SChar x) ∧ v.countP isXChar = 3 := by
  simp only [rcat, List.foldr] at h
  obtain ⟨u, v1, rfl, hu, g1⟩ := cat_inv h
  obtain ⟨pos, v2, rfl, hpos, g2⟩ := cat_inv g1
  obtain ⟨sx, v3, rfl, hx, g3⟩ := cat_inv g2
  obtain ⟨xc, rfl, hxc⟩ := cls_inv hx
  obtain ⟨co, v4, rfl, hco, g4⟩ := cat_inv g3
  have ht := eps_inv g4
  subst ht
  obtain ⟨c, r, rfl, hc, hlen, _⟩ := sym_shape hu
  obtain ⟨hnoS1, hcnt1, _⟩ := pos_parts_ci hpos
  obtain ⟨hnoS2, hcnt2⟩ := coord_parts_ci hco
  refine ⟨c :: r, pos ++ ([xc] ++ (co ++ [])), rfl, by simp [hlen],
    ⟨c, r, rfl, hc⟩, ?_, ?_⟩
  · intro x hx'
    simp only [List.append_nil, List.mem_append, List.mem_singleton] at hx'
    rcases hx' with hx' | hx' | hx'
    · exact hnoS1 x hx'
    · subst hx'
      exact toLowerLit_not_SChar (by decide) hxc
    · exact hnoS2 x hx'
  · have hxc' : isXChar xc = true := hxc
    simp [List.countP_append, List.countP_cons, hcnt1, hcnt2, hxc']

theorem bodyRaw_head {w : List Char}
    (h : RMatch (.cat SYMBOL_BLOCK COORD_BLOCK) w) :
    ∃ c r, w = c :: r ∧ SChar c := by
  obtain ⟨u, v, rfl, _, ⟨c, r, rfl, hc⟩, _, _⟩ := bodyRaw_parts h
  exact ⟨c, r ++ v, by simp, hc⟩

theorem bodyExp_head {w : List Char}
    (h : RMatch (rcat [SYMBOL_BLOCK, POS_COORD_BLOCK, ichr 'x', COORD_BLOCK]) w) :
    ∃ c r, w = c :: r ∧ SChar c := by
  obtain ⟨u, v, rfl, _, ⟨c, r, rfl, hc⟩, _, _⟩ := bodyExp_parts h
  exact ⟨c, r ++ v, by simp, hc⟩

theorem star_head {piece : Regex}
    (hhead : ∀ w, RMatch piece w → ∃ c r, w = c :: r ∧ SChar c)
    {v : List Char} (h : RMatch (.star piece) v) :
    v = [] ∨ ∃ c r, v = c :: r ∧ SChar c := by
  rcases star_first h with rfl | ⟨s1, s2, hne, rfl, hp, _⟩
  · exact .inl rfl
  · obtain ⟨c, r, rfl, hc⟩ := hhead s1 hp
    exact .inr ⟨c, r ++ s2, by simp, hc⟩

theorem sfree_align {u1 v1 u2 v2 : List Char} (he : u1 ++ v1 = u2 ++ v2)
    (h1 : ∀ x ∈ u1, ¬SChar x) (h2 : ∀ x ∈ u2, ¬SChar x)
    (e1 : v1 = [] ∨ ∃ c t, v1 = c :: t ∧ SChar c)
    (e2 : v2 = [] ∨ ∃ c t, v2 = c :: t ∧ SChar c) : u1 = u2 ∧ v1 = v2 := by
  induction u1 generalizing u2 with
  | nil =>
      cases u2 with
      | nil => exact ⟨rfl, by simpa using he⟩
      | cons c r =>
          simp only [List.nil_append, List.cons_append] at he
          rcases e1 with rfl | ⟨c', t, heq, hS⟩
          · exact absurd he (by simp)
          · rw [heq] at he
            injection he with hc _
            subst hc
            exact absurd hS (h2 c' (by simp))
  | cons c r ih =>
      cases u2 with
      | nil =>
          simp only [List.cons_append, List.nil_append] at he
          rcases e2 with rfl | ⟨c', t, heq, hS⟩
          · exact absurd he.symm (by simp)
          · rw [heq] at he
            injection he with hc _
            rw [← hc] at hS
            exact absurd hS (h1 c (by simp))
      | cons c2 r2 =>
          simp only [List.cons_append] at he
          injection he with hc htl
          subst hc
          obtain ⟨hu, hv⟩ := ih htl (fun x hx => h1 x (by simp [hx]))
            (fun x hx => h2 x (by simp [hx]))
          exact ⟨by rw [hu], hv⟩

theorem body_star_empty {B : List Char}
    (h1 : RMatch (.star (.cat SYMBOL_BLOCK COORD_BLOCK)) B)
    (h2 : RMatch (.star
      (rcat [SYMBOL_BLOCK, POS_COORD_BLOCK, ichr 'x', COORD_BLOCK])) B) :
    B = [] := by
  by_contra hne
  rcases star_first h1 with rfl | ⟨w1, rest1, hne1, rfl, hw1, hrest1⟩
  · exact hne rfl
  rcases star_first h2 with he2 | ⟨w2, rest2, hne2, heq2, hw2, hrest2⟩
  · exact hne he2
  obtain ⟨u1, v1, rfl, hlen1, _, hnoS1, hcnt1⟩ := bodyRaw_parts hw1
  obtain ⟨u2, v2, rfl, hlen2, _, hnoS2, hcnt2⟩ := bodyExp_parts hw2
  rw [List.append_assoc, List.append_assoc] at heq2
  obtain ⟨hu, hv⟩ := List.append_inj heq2 (by rw [hlen1, hlen2])
  have hr1 := star_head (fun w hw => bodyRaw_head hw) hrest1
  have hr2 := star_head (fun w hw => bodyExp_head hw) hrest2
  obtain ⟨hveq, _⟩ := sfree_align hv hnoS1 hnoS2 hr1 hr2
  rw [hveq, hcnt2] at hcnt1
  exact absurd hcnt1 (by decide)

theorem rplus_star {r : Regex} {u : List Char} (h : RMatch (rplus r) u) :
    RMatch (.star r) u := by
  obtain ⟨s1, s2, heq, hh1, hh2⟩ := cat_inv h
  exact .starCons hh1 hh2 heq

theorem preword_parts {p : List Char} (h : RMatch pre_word p) :
    p = [] ∨ ∃ a rest, p = a :: rest ∧ a.toLower = 'a' ∧
      RMatch (.star SYMBOL_BLOCK) rest := by
  simp only [pre_word, ropt, ichr] at h
  rcases alt_inv h with h | h
  · obtain ⟨sa, rest, heq, ha, hrest⟩ := cat_inv h
    obtain ⟨a, rfl, haa⟩ := cls_inv ha
    exact .inr ⟨a, rest, by simpa using heq, by simpa using haa, rplus_star hrest⟩
  · exact .inl (eps_inv h)

theorem symstar_nil_align {w2 r1 r2 : List Char}
    (h2 : RMatch (.star SYMBOL_BLOCK) w2)
    (he : r1 = w2 ++ r2)
    (hr1 : ∃ c t, r1 = c :: t ∧ ¬SChar c) :
    w2 = [] ∧ r1 = r2 := by
  rcases star_first h2 with rfl | ⟨u2, rest2, hne2, rfl, hu2, _⟩
  · exact ⟨rfl, by simpa using he⟩
  · obtain ⟨c, r, rfl, hc, _, _⟩ := sym_shape hu2
    obtain ⟨c1, t1, heq1, hnc⟩ := hr1
    rw [heq1] at he
    simp only [List.cons_append, List.append_assoc] at he
    injection he with hc1 _
    rw [hc1] at hnc
    exact absurd hc hnc

theorem symstar_align : ∀ (n : Nat) {w1 w2 r1 r2 : List Char},
    w1.length ≤ n →
    RMatch (.star SYMBOL_BLOCK) w1 → RMatch (.star SYMBOL_BLOCK) w2 →
    w1 ++ r1 = w2 ++ r2 →
    (∃ c t, r1 = c :: t ∧ ¬SChar c) → (∃ c t, r2 = c :: t ∧ ¬SChar c) →
    w1 = w2 ∧ r1 = r2 := by
  intro n
  induction n with
  | zero =>
      intro w1 w2 r1 r2 hl h1 h2 he hr1 hr2
      have hw1 : w1 = [] := List.eq_nil_of_length_eq_zero (Nat.le_zero.mp hl)
      subst hw1
      obtain ⟨hw2, hr⟩ := symstar_nil_align h2 (by simpa using he) hr1
      exact ⟨hw2.symm, hr⟩
  | succ n ih =>
      intro w1 w2 r1 r2 hl h1 h2 he hr1 hr2
      rcases star_first h1 with rfl | ⟨u1, rest1, hne1, rfl, hu1, hrest1⟩
      · obtain ⟨hw2, hr⟩ := symstar_nil_align h2 (by simpa using he) hr1
        exact ⟨hw2.symm, hr⟩
      rcases star_first h2 with rfl | ⟨u2, rest2, hne2, rfl, hu2, hrest2⟩
      · obtain ⟨hw1, hr⟩ := symstar_nil_align h1 (by simpa using he.symm) hr2
        exact ⟨hw1, hr.symm⟩
      obtain ⟨c1, r1', heq1, hc1, hlen1, _⟩ := sym_shape hu1
      obtain ⟨c2, r2', heq2, hc2, hlen2, _⟩ := sym_shape hu2
      subst heq1
      subst heq2
      rw [List.append_assoc, List.append_assoc] at he
      obtain ⟨hu, hrest⟩ := List.append_inj he (by simp [hlen1, hlen2])
      have hlr : rest1.length ≤ n := by
        simp only [List.length_append, List.length_cons, hlen1] at hl
        omega
      obtain ⟨hw, hr⟩ := ih hlr hrest1 hrest2 hrest hr1 hr2
      exact ⟨by rw [hu, hw], hr⟩

theorem word_head {X : Regex} {t : List Char}
    (h : RMatch (.cat pre_word (.cat markerRe X)) t) :
    ∃ c r, t = c :: r ∧ ¬SChar c := by
  obtain ⟨p, q, rfl, hp, hq⟩ := cat_inv h
  obtain ⟨ml, B, rfl, hm, hB⟩ := cat_inv hq
  simp only [markerRe] at hm
  obtain ⟨m, rfl, hmm⟩ := cls_inv hm
  rcases preword_parts hp with rfl | ⟨a, rest, rfl, ha, hrest⟩
  · exact ⟨m, B, by simp, isMarkerCI_not_SChar hmm⟩
  · refine ⟨a, rest ++ ([m] ++ B), by simp, ?_⟩
    intro hs
    have hcontra : ('a' : Char) = 's' := by
      rw [← ha]
      exact hs
    exact absurd hcontra (by decide)

theorem word_align {t : List Char} {B1r B2r : Regex}
    (h1 : RMatch (.cat pre_word (.cat markerRe (.star B1r))) t)
    (h2 : RMatch (.cat pre_word (.cat markerRe (.star B2r))) t) :
    ∃ p m B, t = p ++ m :: B ∧ RMatch pre_word p ∧ isMarkerCI m = true ∧
      RMatch (.star B1r) B ∧ RMatch (.star B2r) B := by
  obtain ⟨p1, q1, rfl, hp1, hq1⟩ := cat_inv h1
  obtain ⟨ml1, B1, rfl, hm1, hB1⟩ := cat_inv hq1
  simp only [markerRe] at hm1
  obtain ⟨m1, rfl, hmm1⟩ := cls_inv hm1
  obtain ⟨p2, q2, heq, hp2, hq2⟩ := cat_inv h2
  obtain ⟨ml2, B2, heq2, hm2, hB2⟩ := cat_inv hq2
  simp only [markerRe] at hm2
  obtain ⟨m2, heq3, hmm2⟩ := cls_inv hm2
  subst heq3
  subst heq2
  rcases preword_parts hp1 with rfl | ⟨a1, rest1, heqp1, ha1, hst1⟩
  · rcases preword_parts hp2 with rfl | ⟨a2, rest2, heqp2, ha2, hst2⟩
    · simp only [List.nil_append, List.singleton_append] at heq
      injection heq with hm12 hB12
      subst hm12
      subst hB12
      exact ⟨[], m1, B1, by simp, hp1, hmm1, hB1, hB2⟩
    · subst heqp2
      simp only [List.nil_append, List.singleton_append, List.cons_append] at heq
      injection heq with hma _
      rw [hma] at hmm1
      exact absurd ha2 (isMarkerCI_not_a hmm1)
  · rcases preword_parts hp2 with rfl | ⟨a2, rest2, heqp2, ha2, hst2⟩
    · subst heqp1
      simp only [List.nil_append, List.singleton_append, List.cons_append] at heq
      injection heq with hma _
      rw [← hma] at hmm2
      exact absurd ha1 (isMarkerCI_not_a hmm2)
    · subst heqp1
      subst heqp2
      simp only [List.cons_append] at heq
      injection heq with hah heqt
      subst hah
      obtain ⟨hre, hmb⟩ := symstar_align rest1.length (le_refl _) hst1 hst2 heqt
        ⟨m1, B1, rfl, isMarkerCI_not_SChar hmm1⟩
        ⟨m2, B2, rfl, isMarkerCI_not_SChar hmm2⟩
      injection hmb with hm12 hB12
      subst hm12
      subst hB12
      subst hre
      exact ⟨a1 :: rest1, m1, B1, by simp, hp1, hmm1, hB1, hB2⟩

theorem raw_expanded_token {t : List Char} (h1 : RMatch RAW_TOKEN t)
    (h2 : RMatch EXPANDED_TOKEN t) :
    RMatch (.cat pre_word markerRe) t := by
  rcases alt_inv h1 with hw1 | hq1
  · rcases alt_inv h2 with hw2 | hpp2
    · simp only [re_word] at hw1
      simp only [re_pword] at hw2
      obtain ⟨p, m, B, rfl, hp, hm, hB1, hB2⟩ := word_align hw1 hw2
      have hB : B = [] := body_star_empty hB1 hB2
      subst hB
      have hmr : RMatch markerRe [m] := RMatch.cls hm
      exact .cat hp hmr rfl
    · simp only [re_ppunc] at hpp2
      obtain ⟨u, v, heqt, hu, hv⟩ := cat_inv hpp2
      obtain ⟨c, r, heqc, hc, _⟩ := punc_shape_ci hu
      simp only [re_word] at hw1
      obtain ⟨c', r', heqw, hnc⟩ := word_head hw1
      rw [heqc] at heqt
      rw [heqw] at heqt
      simp only [List.cons_append] at heqt
      injection heqt with hch _
      rw [hch] at hnc
      exact absurd hc hnc
  · rcases alt_inv h2 with hw2 | hpp2
    · obtain ⟨c, r, heqc, hc, _⟩ := punc_shape_ci hq1
      simp only [re_pword] at hw2
      obtain ⟨c', r', heqw, hnc⟩ := word_head hw2
      rw [heqc] at heqw
      injection heqw with hch _
      rw [← hch] at hnc
      exact absurd hc hnc
    · obtain ⟨c, r, heqc, _, hlen⟩ := punc_shape_ci hq1
      simp only [re_ppunc] at hpp2
      obtain ⟨u, v, heqt, hu, hv⟩ := cat_inv hpp2
      obtain ⟨c2, r2, heqc2, _, hlen2⟩ := punc_shape_ci hu
      obtain ⟨_, _, hvlen⟩ := pos_parts_ci hv
      have h6 : t.length = 6 := by
        rw [heqc]
        simp [hlen]
      have hu6 : u.length = 6 := by
        rw [heqc2]
        simp [hlen2]
      have h9 : 9 ≤ t.length := by
        rw [heqt, List.length_append, hu6]
        omega
      exact absurd (h6 ▸ h9) (by decide)

/-! ## Claim theorems -/

/-- C3: for every notation string consisting of a punctuation symbol
followed by a signed coordinate pair, `parse` returns a cluster of
exactly two tokens: an anchor token `B` whose coordinate is the
componentwise negation of the body coordinate, then the punctuation
symbol at the given coordinate; in particular
`parse('S38800n36xn4') = [('B', (36, 4)), ('S38800', (-36, -4))]`. -/
theorem claim_C3 :
    (∀ (p cs : List Char) (x y : Int),
      PUNC_CS.rmatch p = true → COORD_BLOCK_CS.rmatch cs = true →
      coordinates cs = .ok (x, y) →
      parse (String.mk (p ++ cs)) =
        .ok [(['B'], XInt.int (-x), XInt.int (-y)),
             (p, XInt.int x, XInt.int y)]) ∧
    parse "S38800n36xn4" =
      .ok [(['B'], XInt.int 36, XInt.int 4),
           (['S', '3', '8', '8', '0', '0'], XInt.int (-36), XInt.int (-4))] := by
  refine ⟨?_, rfl⟩
  intro p cs x y hp hcs hco
  have hP := (rmatch_iff _ _).mp hp
  have hC := (rmatch_iff _ _).mp hcs
  obtain ⟨c4, c5, c6, rfl⟩ := punc_cs_shape hP
  have hnA : 'A' ∉ ('S' :: '3' :: '8' :: c4 :: c5 :: c6 :: cs : List Char) := by
    intro hm
    have hm' : 'A' ∈ (['S', '3', '8', c4, c5, c6] : List Char) ++ cs := by
      simpa using hm
    rcases List.mem_append.mp hm' with h | h
    · exact rmatch_chars hP punc_cs_noA _ h rfl
    · exact rmatch_chars hC coord_cs_noA _ h rfl
  show parseL ('S' :: '3' :: '8' :: c4 :: c5 :: c6 :: cs) = _
  exact parseL_punct rfl (pyReplace_A hnA []) hp hcs hco

/-- Witness for C3 at the punctuation symbol `S38800` and the
coordinate string `36x4`. -/
theorem claim_C3_witness :
    parse (String.mk ("S38800".toList ++ "36x4".toList)) =
      .ok [(['B'], XInt.int (-36), XInt.int (-4)),
           ("S38800".toList, XInt.int 36, XInt.int 4)] :=
  claim_C3.1 "S38800".toList "36x4".toList 36 4 (by decide) (by decide) rfl

/-- C5: when a notation string references a symbol that has no record
in the glyph store under the requested font (the modelled `glyph`
capability returns `none` for that key), rendering propagates the
not-found error to the caller and returns no document value at all. -/
theorem claim_C5 (s : String) (pad : Int) (b : Option Char) (line fill : String)
    (font : Font) (asym : List Char) (axy : XInt × XInt)
    (body : List (List Char × XInt × XInt))
    (hp : parse s = .ok ((asym, axy) :: body))
    (tok : List Char × XInt × XInt) (htok : tok ∈ body)
    (hglyph : font.glyph ((tok.1.drop 1).take 5) line fill = none) :
    ∃ e, glyphogram s pad b line fill false font = .error e := by
  cases hg : glyphogram s pad b line fill false font with
  | error e => exact ⟨e, rfl⟩
  | ok doc =>
      exfalso
      unfold glyphogram at hg
      rw [hp, except_bind_ok] at hg
      obtain ⟨imgs, hm, _⟩ := bind_ok_inv hg
      obtain ⟨bv, hfv⟩ := mapM_ok_forall hm tok htok
      rw [List.drop_one] at hglyph
      simp [hglyph, except_bind_ok] at hfv

/-- Witness for C5: a font whose glyph store has no records at all
errors out on `MS10000n1xn1` and yields no document. -/
theorem claim_C5_witness :
    ∃ e, glyphogram "MS10000n1xn1" 1 none "#000000" "#ffffff" false
        ⟨"font_svg1", fun _ _ _ => none⟩ = .error e :=
  claim_C5 "MS10000n1xn1" 1 none "#000000" "#ffffff"
    ⟨"font_svg1", fun _ _ _ => none⟩ ['M'] (XInt.int (-1), XInt.int (-1))
    [(['S', '1', '0', '0', '0', '0'], XInt.int (-1), XInt.int (-1))]
    rfl (['S', '1', '0', '0', '0', '0'], XInt.int (-1), XInt.int (-1))
    (by simp) rfl

/-- C8 counterexample: `MS1000fn1xn1` and `MS1000Fn1xn1` differ only
in the case of the hex digit `f` inside the symbol key, yet `parse`
succeeds on the first and raises on the second (its structural regex
is compiled without `re.IGNORECASE`), refuting "parse gives the same
result on s and s'". -/
theorem claim_C8_counterexample :
    List.Forall₂ hexAlt "MS1000fn1xn1".toList "MS1000Fn1xn1".toList ∧
    (parse "MS1000fn1xn1").isOk = true ∧
    (parse "MS1000Fn1xn1").isOk = false := by
  refine ⟨?_, rfl, rfl⟩
  repeat first
    | exact .nil
    | refine .cons (.inl rfl) ?_
    | refine .cons (.inr rfl) ?_

/-- C8 (amended): the four recognizer predicates are case-insensitive
(they are invariant under flipping the case of any hex letters, in
particular of hex digits inside symbol keys); `parse`, however, is
case-sensitive and can fail on a case-variant (see the
counterexample). -/
theorem claim_C8 :
    ∀ s t : String, List.Forall₂ hexAlt s.toList t.toList →
      is_raw s = is_raw t ∧ is_expanded s = is_expanded t ∧
      is_layouted s = is_layouted t ∧ is_panel s = is_panel t := by
  intro s t hrel
  have hsplit := splitAux_hexAlt hrel (List.Forall₂.nil)
  obtain ⟨f1, f2, f3, f4⟩ := flipcls_tokens
  exact ⟨all_rmatch_hexAlt f1 hsplit, all_rmatch_hexAlt f2 hsplit,
    all_rmatch_hexAlt f3 hsplit, all_rmatch_hexAlt f4 hsplit⟩

/-- Witness for C8 at the hex-case variants `MS1000fn1xn1` and
`MS1000Fn1xn1`. -/
theorem claim_C8_witness :
    is_raw "MS1000fn1xn1" = is_raw "MS1000Fn1xn1" ∧
    is_expanded "MS1000fn1xn1" = is_expanded "MS1000Fn1xn1" ∧
    is_layouted "MS1000fn1xn1" = is_layouted "MS1000Fn1xn1" ∧
    is_panel "MS1000fn1xn1" = is_panel "MS1000Fn1xn1" :=
  claim_C8 "MS1000fn1xn1" "MS1000Fn1xn1" (by
    repeat first
      | exact .nil
      | refine .cons (.inl rfl) ?_
      | refine .cons (.inr rfl) ?_)

/-- C10: all four recognizer predicates return `True` on the empty
string and on any string consisting only of whitespace, because the
whitespace split yields no tokens and the per-token check is vacuously
satisfied. -/
theorem claim_C10 (s : String) (h : ∀ c ∈ s.toList, isPySpace c = true) :
    is_raw s = true ∧ is_expanded s = true ∧ is_layouted s = true ∧
    is_panel s = true := by
  have he : pySplit s.toList = [] := splitAux_of_spaces s.toList h
  simp only [String.toList] at he
  simp [is_raw, is_expanded, is_layouted, is_panel, String.toList, he]

/-- Witness for C10 at the whitespace string `" \t "` (and, vacuously,
the empty string). -/
theorem claim_C10_witness :
    (is_raw " \t " = true ∧ is_expanded " \t " = true ∧
     is_layouted " \t " = true ∧ is_panel " \t " = true) ∧
    (is_raw "" = true ∧ is_expanded "" = true ∧
     is_layouted "" = true ∧ is_panel "" = true) :=
  ⟨claim_C10 " \t " (by decide), claim_C10 "" (by decide)⟩

/-- C1: for every valid 5-hex-digit symbol key, with or without the
leading `S` marker, `ISWAFont.code` strips the marker if present and
returns exactly `1 + (hex3 - 0x100) * 96 + hex2`. -/
theorem claim_C1 (d0 d1 d2 d3 d4 : Char) (v0 v1 v2 v3 v4 : Int)
    (h0 : hexDigitVal d0 = some v0) (h1 : hexDigitVal d1 = some v1)
    (h2 : hexDigitVal d2 = some v2) (h3 : hexDigitVal d3 = some v3)
    (h4 : hexDigitVal d4 = some v4)
    (hv0 : v0 = 1 ∨ v0 = 2 ∨ v0 = 3) (hv3 : 0 ≤ v3 ∧ v3 ≤ 5) :
    code ('S' :: [d0, d1, d2, d3, d4]) = code [d0, d1, d2, d3, d4] ∧
    code [d0, d1, d2, d3, d4] =
      some (1 + ((256 * v0 + 16 * v1 + v2) - 256) * 96 + (16 * v3 + v4)) := by
  have hc := code_five h0 h1 h2 h3 h4
  have hd0 := hexDigitVal_ne_S h0
  constructor
  · have hs : (('S' :: [d0, d1, d2, d3, d4] : List Char)).head? = some 'S' := rfl
    have hh : ([d0, d1, d2, d3, d4] : List Char).head? ≠ some 'S' := by
      simp [hd0]
    simp only [code, if_pos hs, if_neg hh, List.tail_cons]
  · exact hc

/-- Witness for C1 at the key `10350` (category `0x103`, sub-index
`0x50`). -/
theorem claim_C1_witness :
    code ('S' :: ['1', '0', '3', '5', '0']) = code ['1', '0', '3', '5', '0'] ∧
    code ['1', '0', '3', '5', '0'] =
      some (1 + ((256 * 1 + 16 * 0 + 3) - 256) * 96 + (16 * 5 + 0)) :=
  claim_C1 '1' '0' '3' '5' '0' 1 0 3 5 0 (by decide) (by decide) (by decide)
    (by decide) (by decide) (by decide) (by decide)

/-- C6: `code` is injective over the valid category x sub-index
domain, and `code('S10001') = 2`, `code('S1000f') = 16`,
`code('10000') = 1`. -/
theorem claim_C6 :
    (∀ (a0 a1 a2 a3 a4 b0 b1 b2 b3 b4 : Char)
       (x0 x1 x2 x3 x4 y0 y1 y2 y3 y4 : Int),
      hexDigitVal a0 = some x0 → hexDigitVal a1 = some x1 →
      hexDigitVal a2 = some x2 → hexDigitVal a3 = some x3 →
      hexDigitVal a4 = some x4 →
      hexDigitVal b0 = some y0 → hexDigitVal b1 = some y1 →
      hexDigitVal b2 = some y2 → hexDigitVal b3 = some y3 →
      hexDigitVal b4 = some y4 →
      x3 ≤ 5 → y3 ≤ 5 →
      (256 * x0 + 16 * x1 + x2, 16 * x3 + x4) ≠
        (256 * y0 + 16 * y1 + y2, 16 * y3 + y4) →
      code [a0, a1, a2, a3, a4] ≠ code [b0, b1, b2, b3, b4]) ∧
    code "S10001".toList = some 2 ∧
    code "S1000f".toList = some 16 ∧
    code "10000".toList = some 1 := by
  refine ⟨?_, by decide, by decide, by decide⟩
  intro a0 a1 a2 a3 a4 b0 b1 b2 b3 b4 x0 x1 x2 x3 x4 y0 y1 y2 y3 y4
  intro ha0 ha1 ha2 ha3 ha4 hb0 hb1 hb2 hb3 hb4 hx3 hy3 hne heq
  rw [code_five ha0 ha1 ha2 ha3 ha4, code_five hb0 hb1 hb2 hb3 hb4] at heq
  injection heq with heq
  have bx4 := hexDigitVal_bounds ha4
  have by4 := hexDigitVal_bounds hb4
  have bx3 := hexDigitVal_bounds ha3
  have by3 := hexDigitVal_bounds hb3
  apply hne
  have hc : 256 * x0 + 16 * x1 + x2 = 256 * y0 + 16 * y1 + y2 ∧
      16 * x3 + x4 = 16 * y3 + y4 := by omega
  rw [hc.1, hc.2]

/-- Witness for C6: the distinct valid keys `10001` and `1000f`
denote distinct (category, sub-index) pairs and receive distinct
addresses. -/
theorem claim_C6_witness :
    code ['1', '0', '0', '0', '1'] ≠ code ['1', '0', '0', '0', 'f'] :=
  claim_C6.1 '1' '0' '0' '0' '1' '1' '0' '0' '0' 'f'
    1 0 0 0 1 1 0 0 0 15
    (by decide) (by decide) (by decide) (by decide) (by decide)
    (by decide) (by decide) (by decide) (by decide) (by decide)
    (by decide) (by decide) (by decide)

theorem symbol_type_cover {z : Int} (h1 : 256 ≤ z) (h2 : z ≤ 907) :
    ∃ t, symbol_type z = some t ∧
      (t = "hand" ∨ t = "movement" ∨ t = "dynamics" ∨ t = "head" ∨
       t = "trunk" ∨ t = "limb" ∨ t = "location" ∨ t = "punctuation") := by
  have hf : symbol_ranges.filter (fun r => ¬ (r.1 = "iswa" ∨ r.1 = "writing")) =
      [("hand", 256, 516), ("movement", 517, 758), ("dynamics", 759, 766),
       ("head", 767, 876), ("trunk", 877, 885), ("limb", 886, 894),
       ("location", 895, 902), ("punctuation", 903, 907)] := by rfl
  unfold symbol_type
  rw [hf]
  by_cases b1 : z ≤ 516
  · refine ⟨"hand", ?_, by simp⟩
    rw [List.find?_cons_of_pos _ (by simp only [decide_eq_true_eq]; exact ⟨h1, b1⟩)]
    rfl
  rw [List.find?_cons_of_neg _ (by simp only [decide_eq_true_eq]; omega)]
  by_cases b2 : z ≤ 758
  · refine ⟨"movement", ?_, by simp⟩
    rw [List.find?_cons_of_pos _ (by simp only [decide_eq_true_eq]; omega)]
    rfl
  rw [List.find?_cons_of_neg _ (by simp only [decide_eq_true_eq]; omega)]
  by_cases b3 : z ≤ 766
  · refine ⟨"dynamics", ?_, by simp⟩
    rw [List.find?_cons_of_pos _ (by simp only [decide_eq_true_eq]; omega)]
    rfl
  rw [List.find?_cons_of_neg _ (by simp only [decide_eq_true_eq]; omega)]
  by_cases b4 : z ≤ 876
  · refine ⟨"head", ?_, by simp⟩
    rw [List.find?_cons_of_pos _ (by simp only [decide_eq_true_eq]; omega)]
    rfl
  rw [List.find?_cons_of_neg _ (by simp only [decide_eq_true_eq]; omega)]
  by_cases b5 : z ≤ 885
  · refine ⟨"trunk", ?_, by simp⟩
    rw [List.find?_cons_of_pos _ (by simp only [decide_eq_true_eq]; omega)]
    rfl
  rw [List.find?_cons_of_neg _ (by simp only [decide_eq_true_eq]; omega)]
  by_cases b6 : z ≤ 894
  · refine ⟨"limb", ?_, by simp⟩
    rw [List.find?_cons_of_pos _ (by simp only [decide_eq_true_eq]; omega)]
    rfl
  rw [List.find?_cons_of_neg _ (by simp only [decide_eq_true_eq]; omega)]
  by_cases b7 : z ≤ 902
  · refine ⟨"location", ?_, by simp⟩
    rw [List.find?_cons_of_pos _ (by simp only [decide_eq_true_eq]; omega)]
    rfl
  rw [List.find?_cons_of_neg _ (by simp only [decide_eq_true_eq]; omega)]
  refine ⟨"punctuation", ?_, by simp⟩
  rw [List.find?_cons_of_pos _ (by simp only [decide_eq_true_eq]; omega)]
  rfl

/-- C2 counterexample: `S3ff50` is a valid symbol key by the claim's
own validity definition (it fully matches `SYMBOL_BLOCK`), yet
`symbol_type(symbol_id('S3ff50'))` raises (id `0x3ff` falls in no
range), refuting "symbol_type(symbol_id(k)) is defined ... for every
valid symbol key". -/
theorem claim_C2_counterexample :
    SYMBOL_BLOCK.rmatch "S3ff50".toList = true ∧
    symbol_type_str "S3ff50".toList = none := by
  exact ⟨by decide, by decide⟩

/-- C2 (amended): for every valid symbol key whose category field (the
first three hex digits) is at most `0x38b`, `symbol_type(symbol_id(k))`
is defined, with or without the leading marker, and returns one of the
eight categories; the eight category ranges are pairwise disjoint and
jointly cover `[0x100, 0x38b]`. -/
theorem claim_C2 :
    (∀ (d0 d1 d2 d3 d4 : Char) (v0 v1 v2 v3 v4 : Int),
      hexDigitVal d0 = some v0 → hexDigitVal d1 = some v1 →
      hexDigitVal d2 = some v2 → hexDigitVal d3 = some v3 →
      hexDigitVal d4 = some v4 →
      (v0 = 1 ∨ v0 = 2 ∨ v0 = 3) → v3 ≤ 5 →
      256 * v0 + 16 * v1 + v2 ≤ 907 →
      ∃ t, symbol_type_str ('S' :: [d0, d1, d2, d3, d4]) = some t ∧
        symbol_type_str [d0, d1, d2, d3, d4] = some t ∧
        (t = "hand" ∨ t = "movement" ∨ t = "dynamics" ∨ t = "head" ∨
         t = "trunk" ∨ t = "limb" ∨ t = "location" ∨ t = "punctuation")) ∧
    List.Pairwise (fun r1 r2 => r1.2.2 < r2.2.1 ∨ r2.2.2 < r1.2.1)
      (symbol_ranges.filter fun r => ¬ (r.1 = "iswa" ∨ r.1 = "writing")) ∧
    (∀ z : Int, 256 ≤ z → z ≤ 907 →
      ∃ t, symbol_type z = some t ∧
        (t = "hand" ∨ t = "movement" ∨ t = "dynamics" ∨ t = "head" ∨
         t = "trunk" ∨ t = "limb" ∨ t = "location" ∨ t = "punctuation")) := by
  refine ⟨?_, by decide, fun z h1 h2 => symbol_type_cover h1 h2⟩
  intro d0 d1 d2 d3 d4 v0 v1 v2 v3 v4 h0 h1 h2 h3 h4 hv0 hv3 hub
  obtain ⟨e1, _⟩ := intHex_five h0 h1 h2 h3 h4
  have hd0 := hexDigitVal_ne_S h0
  have b1 := hexDigitVal_bounds h1
  have b2 := hexDigitVal_bounds h2
  have hlb : 256 ≤ 256 * v0 + 16 * v1 + v2 := by rcases hv0 with h | h | h <;> omega
  obtain ⟨t, ht, hmem⟩ := symbol_type_cover hlb hub
  refine ⟨t, ?_, ?_, hmem⟩
  · have hs : (('S' :: [d0, d1, d2, d3, d4] : List Char)).head? = some 'S' := rfl
    simp only [symbol_type_str, symbol_id, if_pos hs, List.tail_cons]
    have : ([d0, d1, d2, d3, d4] : List Char).take 3 = [d0, d1, d2] := rfl
    rw [this, e1]
    exact ht
  · have hh : ([d0, d1, d2, d3, d4] : List Char).head? ≠ some 'S' := by simp [hd0]
    simp only [symbol_type_str, symbol_id, if_neg hh]
    have : ([d0, d1, d2, d3, d4] : List Char).take 3 = [d0, d1, d2] := rfl
    rw [this, e1]
    exact ht

/-- Witness for C2 at the key `10350` (id `0x103`, a hand symbol). -/
theorem claim_C2_witness :
    ∃ t, symbol_type_str ('S' :: ['1', '0', '3', '5', '0']) = some t ∧
      symbol_type_str ['1', '0', '3', '5', '0'] = some t ∧
      (t = "hand" ∨ t = "movement" ∨ t = "dynamics" ∨ t = "head" ∨
       t = "trunk" ∨ t = "limb" ∨ t = "location" ∨ t = "punctuation") :=
  claim_C2.1 '1' '0' '3' '5' '0' 1 0 3 5 0 (by decide) (by decide) (by decide)
    (by decide) (by decide) (by decide) (by decide) (by decide)

theorem XInt.neg_neg (a : XInt) : a.neg.neg = a := by
  cases a <;> simp [XInt.neg]

theorem XInt.blt_self (a : XInt) : a.blt a = false := by
  cases a <;> simp [XInt.blt]

theorem XInt.blt_asymm {a b : XInt} (h : a.blt b = true) : b.blt a = false := by
  cases a <;> cases b <;> simp_all [XInt.blt] <;> omega

theorem XInt.blt_conn {a b : XInt} (h1 : a.blt b = false) (h2 : b.blt a = false) :
    a = b := by
  cases a <;> cases b <;> simp_all [XInt.blt] <;> omega

/-- C4 counterexample: `parse('M')` has zero body tokens and no
explicit extent, yet its synthesized anchor coordinate is the float
seed `(-inf, -inf)`, not `(0, 0)`. -/
theorem claim_C4_counterexample :
    parse "M" = .ok [(['M'], XInt.negInf, XInt.negInf)] ∧
    XInt.negInf ≠ XInt.int 0 :=
  ⟨rfl, by decide⟩

/-- C4 (amended): `parse('')` yields exactly `[('M', (0, 0))]`; but a
bare orientation marker (zero body tokens, no explicit extent, and a
non-empty input) gets the running-maxima seed `(-inf, -inf)` as its
synthesized anchor coordinate, not `(0, 0)`. -/
theorem claim_C4 :
    parse "" = .ok [(['M'], XInt.int 0, XInt.int 0)] ∧
    ∀ m : Char, m = 'B' ∨ m = 'L' ∨ m = 'M' ∨ m = 'R' →
      parse (String.mk [m]) = .ok [([m], XInt.negInf, XInt.negInf)] := by
  refine ⟨rfl, ?_⟩
  rintro m (rfl | rfl | rfl | rfl) <;> rfl

/-- Witness for C4 at the bare marker `M`. -/
theorem claim_C4_witness :
    parse (String.mk ['M']) = .ok [(['M'], XInt.negInf, XInt.negInf)] :=
  claim_C4.2 'M' (Or.inr (Or.inr (Or.inl rfl)))

/-- C9 counterexample: for the cluster parsed from
`'M2x2S1000010x10'` the unclamped body minimum x is `10` and the
anchor x is `2`; the centering computation yields `(-2, 2)`, not the
claimed `(-max(|x_min|, x_max), +max(|x_min|, x_max)) = (-10, 10)`. -/
theorem claim_C9_counterexample :
    parse "M2x2S1000010x10" =
      .ok [(['M'], XInt.int 2, XInt.int 2),
           (['S', '1', '0', '0', '0', '0'], XInt.int 10, XInt.int 10)] ∧
    (min_coordinates [(['M'], XInt.int 2, XInt.int 2),
        (['S', '1', '0', '0', '0', '0'], XInt.int 10, XInt.int 10)] false).1 =
      XInt.int 10 ∧
    bound_x (some 'c') (bound_x (some 'c') (XInt.int 10) (XInt.int 2)).1
        (bound_x (some 'c') (XInt.int 10) (XInt.int 2)).2 =
      (XInt.int (-2), XInt.int 2) ∧
    (XInt.int (-2), XInt.int 2) ≠
      (XInt.int (-(max |(10 : Int)| 2)), XInt.int (max |(10 : Int)| 2)) :=
  ⟨rfl, rfl, rfl, by decide⟩

/-- C9 (amended): when the bound mode requests symmetric horizontal
bounding (`'c'` or `'h'`), the duplicated centering block of
`glyphogram` replaces the horizontal bounds (before padding) with
`x_min = -m`, `x_max = +m` for `m = max(-x_min, x_max)` — the negation
of the unclamped minimum, not its absolute value. -/
theorem claim_C9 (b : Option Char) (hb : b = some 'c' ∨ b = some 'h')
    (x_min x_max : XInt) :
    bound_x b (bound_x b x_min x_max).1 (bound_x b x_min x_max).2 =
      ((XInt.pymax x_min.neg x_max).neg, XInt.pymax x_min.neg x_max) := by
  have hb' : (b == some 'c' || b == some 'h') = true := by
    rcases hb with rfl | rfl <;> decide
  by_cases h1 : XInt.blt x_max x_min.neg = true
  · have h2 := XInt.blt_asymm h1
    simp [bound_x, hb', h1, h2, XInt.blt_self, XInt.pymax, XInt.neg_neg]
  · have h1' : XInt.blt x_max x_min.neg = false := by simpa using h1
    by_cases h2 : XInt.blt x_min.neg x_max = true
    · simp [bound_x, hb', h1', h2, XInt.neg_neg, XInt.blt_self, XInt.pymax]
    · have h2' : XInt.blt x_min.neg x_max = false := by simpa using h2
      have he := XInt.blt_conn h2' h1'
      simp [bound_x, hb', h1', h2', XInt.neg_neg, XInt.blt_self, XInt.pymax, he]

/-- Witness for C9 at bound mode `'c'`, `x_min = 10`, `x_max = 2`. -/
theorem claim_C9_witness :
    bound_x (some 'c') (bound_x (some 'c') (XInt.int 10) (XInt.int 2)).1
        (bound_x (some 'c') (XInt.int 10) (XInt.int 2)).2 =
      (((XInt.int 10).neg.pymax (XInt.int 2)).neg,
       (XInt.int 10).neg.pymax (XInt.int 2)) :=
  claim_C9 (some 'c') (Or.inl rfl) (XInt.int 10) (XInt.int 2)

/-- C7 counterexample: the string `AS10000M` contains the symbol
`S10000` (as an infix), yet it is accepted by BOTH `is_raw` and
`is_expanded` — its single token is an `A`-prefix followed by a bare
marker, which both grammars admit with an empty body.  So "contains at
least one symbol" does not make the two recognizers exclusive. -/
theorem claim_C7_counterexample :
    is_raw "AS10000M" = true ∧ is_expanded "AS10000M" = true ∧
      List.IsInfix "S10000".toList "AS10000M".toList := by
  refine ⟨by decide, by decide, ⟨['A'], ['M'], ?_⟩⟩
  decide

/-- C7 (amended): the overlap of `is_raw` and `is_expanded` is exactly
the degenerate signs: if a string is accepted by both recognizers, then
every one of its whitespace-delimited tokens is an optional symbol
prefix followed by a bare orientation marker (it matches
`pre_word · [BLMR]`), i.e. no token carries any symbol-coordinate body.
Symbols may still occur (in the prefix), so the recognizers are not
exclusive on "strings containing at least one symbol"; they are
exclusive as soon as some token has a non-empty body. -/
theorem claim_C7 (s : String) (h1 : is_raw s = true)
    (h2 : is_expanded s = true) :
    ∀ t ∈ pySplit s.toList, (Regex.cat pre_word markerRe).rmatch t = true := by
  intro t ht
  rw [is_raw, List.all_eq_true] at h1
  rw [is_expanded, List.all_eq_true] at h2
  have m1 : RMatch RAW_TOKEN t := (rmatch_iff _ _).mp (h1 t ht)
  have m2 : RMatch EXPANDED_TOKEN t := (rmatch_iff _ _).mp (h2 t ht)
  exact (rmatch_iff _ _).mpr (raw_expanded_token m1 m2)

/-- Witness for C7 at the doubly-accepted string `AS10000M`. -/
theorem claim_C7_witness :
    (Regex.cat pre_word markerRe).rmatch "AS10000M".toList = true :=
  claim_C7 "AS10000M" (by decide) (by decide) "AS10000M".toList (by decide)

end Swip
